import Mathlib

/-!
# Verification of the email reply-correlation workflow

This development embeds the email threading / reply-matching logic of the
CRM application in Lean 4 and proves properties about it:

* the reply-ingestion job (`supabase/functions/process-email-replies/index.ts`):
  header inspection, message-id normalization, matching against the index of
  sent messages, duplicate checking, counter updates and notifications;
* the outbound send path (`supabase/functions/send-email/index.ts`):
  recipient validation, thread-id resolution, the multi-strategy provider
  message lookup, and the Message-ID reconciliation retry loop;
* the read-side thread assembly (the `threads` memo of the
  entity email-history component).

External I/O (the Graph API and the database) is modelled by passing the
responses of those systems in as explicit data: the mailbox contents, the
per-attempt query responses and the stored tables are parameters, and the
embedded functions are the pure decision logic the handlers run on top of
them.  JavaScript truthiness on optional strings (where both `null`/
`undefined` and the empty string are falsy) is modelled explicitly.
-/

/-! ## JavaScript-flavoured string helpers -/

/-- Truthiness of an optional string: JavaScript treats `null`/`undefined`
and `""` as falsy. -/
def jsStr (o : Option String) : Bool :=
  match o with
  | none => false
  | some s => s != ""

/-- Models `x || null` on an optional string: the empty string collapses to
`null`. -/
def jsOrNone (o : Option String) : Option String :=
  match o with
  | none => none
  | some s => if s = "" then none else some s

/-- Character-wise lowercasing; models `String.prototype.toLowerCase` on the
ASCII header names and addresses this codebase compares. -/
def lowerStr (s : String) : String :=
  String.mk (s.data.map Char.toLower)

/-- Drop one trailing `>` if present. -/
def dropTrailingGt (l : List Char) : List Char :=
  if l.getLast? = some '>' then l.dropLast else l

/-- Models `s.replace(/^<|>$/g, '')`: removes at most one leading `<` and at
most one trailing `>` from the original string. -/
def stripAngle (s : String) : String :=
  let l :=
    match s.data with
    | '<' :: t => t
    | l => l
  String.mk (dropTrailingGt l)

/-- The last element of `s.split(/\s+/)`: the part of the string after its
last whitespace character (empty when the string ends in whitespace). -/
def lastWsToken (s : String) : String :=
  String.mk ((s.data.reverse.takeWhile (fun c => !c.isWhitespace)).reverse)

/-! ## Reply ingestion: inbox scanning (`fetchInboxReplies`)

From `supabase/functions/process-email-replies/index.ts`.  The Graph inbox
response is passed in as a list of messages; the embedded part is the
header inspection and id normalization performed on each message. -/

/-- One entry of `internetMessageHeaders` in a Graph message. -/
structure MailHeader where
  name : String
  value : String
deriving DecidableEq

/-- The fields of an inbox message the job reads (`$select=id,subject,from,
receivedDateTime,bodyPreview,internetMessageHeaders,conversationId`).
`fromAddress` models `msg.from?.emailAddress?.address || ''` and
`fromName` models `msg.from?.emailAddress?.name` before the `|| null`. -/
structure InboxMessage where
  id : String
  subject : String
  fromAddress : String
  fromName : Option String
  receivedDateTime : Nat
  bodyPreview : String
  headers : List MailHeader
deriving DecidableEq

/-- The `ReplyInfo` record assembled by `fetchInboxReplies`. -/
structure ReplyInfo where
  from_email : String
  from_name : Option String
  subject : String
  body_preview : String
  received_at : Nat
  graph_message_id : String
  in_reply_to : Option String
deriving DecidableEq

/-- `headers.find(h => h.name.toLowerCase() === key)?.value`. -/
def findHeader (hs : List MailHeader) (key : String) : Option String :=
  (hs.find? (fun h => lowerStr h.name == key)).map MailHeader.value

/-- The per-message body of the `fetchInboxReplies` loop: look for an
`In-Reply-To` header, fall back to the last token of `References`, skip the
message when neither yields a truthy id, and strip angle brackets from the
extracted id. -/
def mkReplyInfo (msg : InboxMessage) : Option ReplyInfo :=
  let inReplyTo := findHeader msg.headers "in-reply-to"
  let references := findHeader msg.headers "references"
  if !jsStr inReplyTo && !jsStr references then none
  else
    let replyToMessageId :=
      if !jsStr inReplyTo && jsStr references then references.map lastWsToken
      else inReplyTo
    match replyToMessageId with
    | none => none
    | some v =>
      if v = "" then none
      else
        some
          { from_email := msg.fromAddress
            from_name := jsOrNone msg.fromName
            subject := msg.subject
            body_preview := String.mk (msg.bodyPreview.data.take 500)
            received_at := msg.receivedDateTime
            graph_message_id := msg.id
            in_reply_to := some (stripAngle v) }

/-- `fetchInboxReplies` over a fixed inbox state: the replies pushed by the
loop, in inbox order. -/
def fetchInboxReplies (inbox : List InboxMessage) : List ReplyInfo :=
  inbox.filterMap mkReplyInfo

/-! ## Reply ingestion: stored data and the serve handler -/

/-- An `email_history` row, restricted to the columns the reply-ingestion
job reads and writes. -/
structure EmailHistory where
  id : Nat
  sender_email : String
  recipient_email : String
  subject : String
  message_id : Option String
  sent_by : Option Nat
  reply_count : Option Nat
  sent_at : Nat
  status : String
  replied_at : Option Nat
  last_reply_at : Option Nat
deriving DecidableEq

/-- An `email_replies` row as inserted by the job. -/
structure ReplyRecord where
  email_history_id : Nat
  from_email : String
  from_name : Option String
  subject : String
  body_preview : String
  received_at : Nat
  graph_message_id : String
deriving DecidableEq

/-- A `notifications` row as inserted by the job. -/
structure AppNotification where
  user_id : Nat
  message : String
  notification_type : String
  status : String
deriving DecidableEq

/-- The stored state the job reads and writes. -/
structure CrmDb where
  email_history : List EmailHistory
  email_replies : List ReplyRecord
  notifications : List AppNotification
deriving DecidableEq

/-- The `sentEmails` query condition: sent within the lookback window,
`message_id` not null, status not `bounced`. -/
def eligibleSent (sinceDate : Nat) (e : EmailHistory) : Bool :=
  decide (sinceDate ≤ e.sent_at) && e.message_id.isSome && e.status != "bounced"

/-- Insertion step of a sort by `sent_at` descending. -/
def insertBySentAtDesc (e : EmailHistory) : List EmailHistory → List EmailHistory
  | [] => [e]
  | x :: xs => if e.sent_at ≤ x.sent_at then x :: insertBySentAtDesc e xs else e :: x :: xs

/-- Sort by `sent_at` descending; models `order('sent_at', descending)` on
the `sentEmails` query. -/
def sortBySentAtDesc : List EmailHistory → List EmailHistory
  | [] => []
  | x :: xs => insertBySentAtDesc x (sortBySentAtDesc xs)

/-- The `sentEmails` snapshot taken once at the start of a run. -/
def sentSnapshot (db : CrmDb) (sinceDate : Nat) : List EmailHistory :=
  sortBySentAtDesc (db.email_history.filter (eligibleSent sinceDate))

/-- First-occurrence deduplication (the key order of a JavaScript `Map`
built by repeated `set`). -/
def dedupFirstAux (seen : List String) : List String → List String
  | [] => []
  | x :: xs =>
    if seen.contains x then dedupFirstAux seen xs
    else x :: dedupFirstAux (x :: seen) xs

/-- Keys of the `emailsBySender` map, in first-occurrence order. -/
def dedupFirst (l : List String) : List String :=
  dedupFirstAux [] l

/-- `emailsBySender`: groups the snapshot rows by `sender_email`, one group
per distinct sender in first-occurrence order, each group in snapshot
order. -/
def groupBySender (snap : List EmailHistory) : List (String × List EmailHistory) :=
  (dedupFirst (snap.map (·.sender_email))).map
    (fun s => (s, snap.filter (fun e => e.sender_email == s)))

/-- The `messageIdToEmail` map for one sender group: each email with a
truthy `message_id` is stored both under the id and under its
bracket-stripped form.  A later `set` with the same key overwrites an
earlier one, so lookups take the last binding. -/
def buildIndex (emails : List EmailHistory) : List (String × EmailHistory) :=
  emails.foldl
    (fun idx e =>
      match e.message_id with
      | some mid => if mid = "" then idx else idx ++ [(mid, e), (stripAngle mid, e)]
      | none => idx)
    []

/-- `messageIdToEmail.get`: the last binding for a key wins. -/
def idxGet (idx : List (String × EmailHistory)) (k : String) : Option EmailHistory :=
  (idx.reverse.find? (fun p => p.1 == k)).map Prod.snd

/-- The handler's three-step match of a reply's `in_reply_to` id against the
index: the id as extracted, then wrapped in angle brackets, then with angle
brackets stripped — first hit wins. -/
def matchReply (idx : List (String × EmailHistory)) (irt : String) : Option EmailHistory :=
  match idxGet idx irt with
  | some e => some e
  | none =>
    match idxGet idx ("<" ++ irt ++ ">") with
    | some e => some e
    | none => idxGet idx (stripAngle irt)

/-- Number of stored reply records with the given
(`email_history_id`, `graph_message_id`) key. -/
def replyKeyCount (rs : List ReplyRecord) (eid : Nat) (gid : String) : Nat :=
  (rs.filter (fun r => r.email_history_id == eid && r.graph_message_id == gid)).length

/-- The notification text `` `${reply.from_name || reply.from_email} replied
to your email: "${originalEmail.subject}"` ``. -/
def notifMessage (fromName : Option String) (fromEmail subject : String) : String :=
  (match jsOrNone fromName with
   | some n => n
   | none => fromEmail) ++ " replied to your email: \"" ++ subject ++ "\""

/-- The `email_replies` row inserted for a matched reply. -/
def newReplyOf (orig : EmailHistory) (reply : ReplyInfo) : ReplyRecord :=
  { email_history_id := orig.id
    from_email := reply.from_email
    from_name := reply.from_name
    subject := reply.subject
    body_preview := reply.body_preview
    received_at := reply.received_at
    graph_message_id := reply.graph_message_id }

/-- The `email_history` update applied after a reply insert.  The counter
base `currentReplyCount` and the first-reply test come from the *snapshot*
row `orig` (`originalEmail.reply_count || 0`), not from the stored row. -/
def updateRowFn (orig : EmailHistory) (reply : ReplyInfo) (e : EmailHistory) : EmailHistory :=
  if e.id == orig.id then
    { e with
      reply_count := some (orig.reply_count.getD 0 + 1)
      last_reply_at := some reply.received_at
      status := "replied"
      replied_at := if orig.reply_count.getD 0 = 0 then some reply.received_at else e.replied_at }
  else e

/-- The successful-insert branch of the handler: insert the reply record,
update the matched `email_history` row, and insert a notification for the
sender when the snapshot row has a `sent_by` user. -/
def processReplyCore (db : CrmDb) (orig : EmailHistory) (reply : ReplyInfo) : CrmDb :=
  { email_history := db.email_history.map (updateRowFn orig reply)
    email_replies := db.email_replies ++ [newReplyOf orig reply]
    notifications :=
      match orig.sent_by with
      | some uid =>
        db.notifications ++
          [{ user_id := uid
             message := notifMessage reply.from_name reply.from_email orig.subject
             notification_type := "email_replied"
             status := "unread" }]
      | none => db.notifications }

/-- Processing of one candidate reply inside the serve handler: skip when
`in_reply_to` is falsy, match against the sender's index, check for an
already-recorded reply (the `.single()` duplicate probe succeeds — and the
insert is skipped — exactly when one matching row exists), otherwise run
the insert branch. -/
def processReply (db : CrmDb) (idx : List (String × EmailHistory)) (reply : ReplyInfo) :
    CrmDb :=
  match reply.in_reply_to with
  | none => db
  | some irt =>
    if irt = "" then db
    else
      match matchReply idx irt with
      | none => db
      | some orig =>
        if replyKeyCount db.email_replies orig.id reply.graph_message_id = 1 then db
        else processReplyCore db orig reply

/-- The inner loop over one sender's candidate replies. -/
def foldReplies (idx : List (String × EmailHistory)) (db : CrmDb)
    (rs : List ReplyInfo) : CrmDb :=
  rs.foldl (fun d r => processReply d idx r) db

/-- Per-sender processing: scan that sender's inbox once and process each
candidate reply against the sender group's index. -/
def ingestSender (inboxOf : String → List InboxMessage) (db : CrmDb)
    (sg : String × List EmailHistory) : CrmDb :=
  foldReplies (buildIndex sg.2) db (fetchInboxReplies (inboxOf sg.1))

/-- One run of the reply-ingestion job over a fixed inbox state `inboxOf`
(the Graph inbox response per sender address): snapshot the eligible sent
emails, group them by sender, and process every sender group in order. -/
def runIngestion (inboxOf : String → List InboxMessage) (sinceDate : Nat) (db : CrmDb) :
    CrmDb :=
  (groupBySender (sentSnapshot db sinceDate)).foldl (ingestSender inboxOf) db

/-! ## Basic facts about the ingestion model -/

/-- The index entries contributed by one snapshot row: its `message_id` and
the bracket-stripped form, when the id is truthy. -/
def keysOf (e : EmailHistory) : List String :=
  match e.message_id with
  | some mid => if mid = "" then [] else [mid, stripAngle mid]
  | none => []

/-- The pairs contributed to `messageIdToEmail` by one row. -/
def idxEntries (e : EmailHistory) : List (String × EmailHistory) :=
  match e.message_id with
  | some mid => if mid = "" then [] else [(mid, e), (stripAngle mid, e)]
  | none => []

theorem buildIndex_eq_flatMap (emails : List EmailHistory) :
    buildIndex emails = emails.flatMap idxEntries := by
  have step : ∀ (acc : List (String × EmailHistory)) (l : List EmailHistory),
      l.foldl
        (fun idx e =>
          match e.message_id with
          | some mid => if mid = "" then idx else idx ++ [(mid, e), (stripAngle mid, e)]
          | none => idx)
        acc = acc ++ l.flatMap idxEntries := by
    intro acc l
    induction l generalizing acc with
    | nil => simp
    | cons e t ih =>
      have he :
          (match e.message_id with
            | some mid => if mid = "" then acc else acc ++ [(mid, e), (stripAngle mid, e)]
            | none => acc) = acc ++ idxEntries e := by
        unfold idxEntries
        cases e.message_id with
        | none => simp
        | some mid =>
          by_cases hm : mid = "" <;> simp [hm]
      simp only [List.foldl_cons, List.flatMap_cons]
      rw [he, ih, List.append_assoc]
  unfold buildIndex
  simpa using step [] emails

theorem mem_buildIndex {emails : List EmailHistory} {k : String} {e : EmailHistory} :
    (k, e) ∈ buildIndex emails ↔ e ∈ emails ∧ k ∈ keysOf e := by
  rw [buildIndex_eq_flatMap, List.mem_flatMap]
  constructor
  · rintro ⟨a, ha, hp⟩
    have : e = a ∧ k ∈ keysOf a := by
      unfold idxEntries at hp
      unfold keysOf
      split at hp
      · rename_i mid hmid
        split at hp
        · simp at hp
        · rename_i hm
          simp [hm] at hp ⊢
          rcases hp with ⟨h1, h2⟩ | ⟨h1, h2⟩ <;> simp [h1, h2]
      · simp at hp
    exact ⟨this.1 ▸ ha, this.1 ▸ this.2⟩
  · rintro ⟨he, hk⟩
    refine ⟨e, he, ?_⟩
    unfold keysOf at hk
    unfold idxEntries
    split at hk
    · rename_i mid hmid
      split at hk
      · simp at hk
      · rename_i hm
        simp [hm] at hk ⊢
        rcases hk with h | h <;> simp [h]
    · simp at hk

theorem idxGet_mem {idx : List (String × EmailHistory)} {k : String} {e : EmailHistory}
    (h : idxGet idx k = some e) : (k, e) ∈ idx := by
  unfold idxGet at h
  cases hf : idx.reverse.find? (fun p => p.1 == k) with
  | none => simp [hf] at h
  | some p =>
    have hk : p.1 = k := by
      have := List.find?_some hf
      simpa using this
    have hmem : p ∈ idx := List.mem_reverse.mp (List.mem_of_find?_eq_some hf)
    have he : p.2 = e := by simp [hf] at h; exact h
    have : p = (k, e) := by
      cases p
      simp_all
    exact this ▸ hmem

theorem idxGet_eq_some_of_unique {idx : List (String × EmailHistory)} {k : String}
    {E : EmailHistory} (hex : ∃ e₀, (k, e₀) ∈ idx)
    (huniq : ∀ e', (k, e') ∈ idx → e' = E) : idxGet idx k = some E := by
  unfold idxGet
  cases hf : idx.reverse.find? (fun p => p.1 == k) with
  | none =>
    exfalso
    obtain ⟨e₀, he₀⟩ := hex
    have := List.find?_eq_none.mp hf (k, e₀) (List.mem_reverse.mpr he₀)
    simp at this
  | some p =>
    have hk : p.1 = k := by
      have := List.find?_some hf
      simpa using this
    have hmem : p ∈ idx := List.mem_reverse.mp (List.mem_of_find?_eq_some hf)
    have : p.2 = E := by
      apply huniq
      have : p = (k, p.2) := by cases p; simp_all
      exact hk ▸ (by cases p; simpa using hmem)
    simp [this]

theorem matchReply_mem {idx : List (String × EmailHistory)} {irt : String}
    {e : EmailHistory} (h : matchReply idx irt = some e) : ∃ k, (k, e) ∈ idx := by
  unfold matchReply at h
  cases h1 : idxGet idx irt with
  | some e1 =>
    rw [h1] at h
    exact ⟨irt, idxGet_mem (h1.trans (by simpa using h))⟩
  | none =>
    rw [h1] at h
    cases h2 : idxGet idx ("<" ++ irt ++ ">") with
    | some e2 =>
      rw [h2] at h
      exact ⟨_, idxGet_mem (h2.trans (by simpa using h))⟩
    | none =>
      rw [h2] at h
      exact ⟨_, idxGet_mem h⟩

theorem matchReply_of_first {idx : List (String × EmailHistory)} {irt : String}
    {e : EmailHistory} (h : idxGet idx irt = some e) : matchReply idx irt = some e := by
  unfold matchReply
  rw [h]

/-- Wrapping in angle brackets and stripping them is the identity, whatever
the wrapped string contains. -/
theorem stripAngle_wrap (s : String) : stripAngle ("<" ++ s ++ ">") = s := by
  unfold stripAngle
  have hdata : ("<" ++ s ++ ">").data = '<' :: (s.data ++ ['>']) := by
    rw [String.data_append, String.data_append]
    rfl
  rw [hdata]
  simp only []
  unfold dropTrailingGt
  rw [List.getLast?_concat]
  simp [List.dropLast_concat]

/-- A bracketed string is never empty. -/
theorem wrap_ne_empty (s : String) : "<" ++ s ++ ">" ≠ "" := by
  intro h
  have : ("<" ++ s ++ ">").data = '<' :: (s.data ++ ['>']) := by
    rw [String.data_append, String.data_append]
    rfl
  rw [h] at this
  simp [String.data] at this

/-- With `mid` truthy, the keys a row with `message_id = mid` contributes. -/
theorem keysOf_of_message_id {E : EmailHistory} {mid : String}
    (hmid : E.message_id = some mid) (hne : mid ≠ "") :
    keysOf E = [mid, stripAngle mid] := by
  unfold keysOf
  rw [hmid]
  simp [hne]

/-- C2 (amended): if a sent message stores the truthy provider id `mid`,
whose bracket-stripped form is truthy and stable under a second strip (at
most one layer of angle brackets), and no other indexed sent message shares
a key with it, then an inbound message whose first `In-Reply-To` header
value equals `mid` in raw, bracketed, or bracket-stripped form is turned
into a reply candidate by `fetchInboxReplies` and matched by the handler to
exactly that sent message; the first of the three probe forms that hits the
index decides the match. -/
theorem reply_match_finds_target
    (emails : List EmailHistory) (E : EmailHistory) (mid : String)
    (hE : E ∈ emails) (hmid : E.message_id = some mid) (hne : mid ≠ "")
    (hsne : stripAngle mid ≠ "")
    (hidem : stripAngle (stripAngle mid) = stripAngle mid)
    (huniq : ∀ e' ∈ emails, ∀ k ∈ keysOf e', k ∈ keysOf E → e' = E)
    (msg : InboxMessage) (hv : String)
    (hhdr : findHeader msg.headers "in-reply-to" = some hv)
    (hform : hv = mid ∨ hv = "<" ++ mid ++ ">" ∨ hv = stripAngle mid) :
    ∃ r, mkReplyInfo msg = some r ∧ r.in_reply_to = some (stripAngle hv) ∧
      matchReply (buildIndex emails) (stripAngle hv) = some E := by
  have hvne : hv ≠ "" := by
    rcases hform with h | h | h
    · rw [h]; exact hne
    · rw [h]; exact wrap_ne_empty mid
    · rw [h]; exact hsne
  have hkey : stripAngle hv ∈ keysOf E := by
    rw [keysOf_of_message_id hmid hne]
    rcases hform with h | h | h
    · rw [h]; simp
    · rw [h, stripAngle_wrap]; simp
    · rw [h, hidem]; simp
  have hmk : mkReplyInfo msg =
      some
        { from_email := msg.fromAddress
          from_name := jsOrNone msg.fromName
          subject := msg.subject
          body_preview := String.mk (msg.bodyPreview.data.take 500)
          received_at := msg.receivedDateTime
          graph_message_id := msg.id
          in_reply_to := some (stripAngle hv) } := by
    unfold mkReplyInfo
    rw [hhdr]
    simp [jsStr, hvne]
  refine ⟨_, hmk, rfl, ?_⟩
  apply matchReply_of_first
  apply idxGet_eq_some_of_unique
  · exact ⟨E, mem_buildIndex.mpr ⟨hE, hkey⟩⟩
  · intro e' he'
    have := mem_buildIndex.mp he'
    exact huniq e' this.1 _ this.2 hkey

/-- Target sent message of the C2 witness scenario. -/
def c2wEmail : EmailHistory :=
  { id := 1, sender_email := "s@x.com", recipient_email := "r@y.com",
    subject := "Hello", message_id := some "<abc@mx>", sent_by := some 7,
    reply_count := some 0, sent_at := 100, status := "sent",
    replied_at := none, last_reply_at := none }

/-- Inbound message of the C2 witness scenario: its `In-Reply-To` header
carries the raw stored id. -/
def c2wMsg : InboxMessage :=
  { id := "g1", subject := "Re: Hello", fromAddress := "r@y.com",
    fromName := some "R", receivedDateTime := 200, bodyPreview := "thanks",
    headers := [{ name := "In-Reply-To", value := "<abc@mx>" }] }

/-- Witness for `reply_match_finds_target` at a concrete instance. -/
theorem reply_match_finds_target_witness :
    (∃ r, mkReplyInfo c2wMsg = some r ∧
      r.in_reply_to = some (stripAngle "<abc@mx>") ∧
      matchReply (buildIndex [c2wEmail]) (stripAngle "<abc@mx>") = some c2wEmail) :=
  reply_match_finds_target [c2wEmail] c2wEmail "<abc@mx>" (by decide) (by decide)
    (by decide) (by decide) (by decide)
    (by decide) c2wMsg "<abc@mx>" (by decide) (Or.inl rfl)

/-- Stored state of the C2 counterexample: the sent message's stored id
`"<<x@id"` carries two layers of leading angle brackets. -/
def c2cexDb : CrmDb :=
  { email_history :=
      [{ id := 1, sender_email := "s@x.com", recipient_email := "r@y.com",
         subject := "Hi", message_id := some "<<x@id", sent_by := none,
         reply_count := some 0, sent_at := 5, status := "sent",
         replied_at := none, last_reply_at := none }]
    email_replies := []
    notifications := [] }

/-- Inbox of the C2 counterexample: the inbound reply's `In-Reply-To` value
is exactly the bracket-stripped form of the stored id. -/
def c2cexInbox : String → List InboxMessage := fun s =>
  if s = "s@x.com" then
    [{ id := "g9", subject := "Re: Hi", fromAddress := "r@y.com",
       fromName := none, receivedDateTime := 9, bodyPreview := "",
       headers := [{ name := "In-Reply-To", value := "<x@id" }] }]
  else []

set_option maxRecDepth 4000 in
/-- C2 as stated fails on the code: the inbound id `"<x@id"` *is* the
bracket-stripped form of the stored id `"<<x@id"`, yet a full ingestion run
records no reply at all — the three probe forms (`"x@id"`, `"<x@id>"`,
`"x@id"`) all miss the index keys (`"<<x@id"`, `"<x@id"`), because the
handler strips the already-stripped header value once more. -/
theorem reply_match_missed_counterexample :
    stripAngle "<<x@id" = "<x@id" ∧
      (runIngestion c2cexInbox 0 c2cexDb).email_replies = [] := by
  decide

/-- Stored state of the C3 scenario: one sent message with no replies
recorded yet. -/
def c3Db : CrmDb :=
  { email_history :=
      [{ id := 1, sender_email := "s@x.com", recipient_email := "r@y.com",
         subject := "Hi", message_id := some "<abc@ms>", sent_by := none,
         reply_count := some 0, sent_at := 100, status := "sent",
         replied_at := none, last_reply_at := none }]
    email_replies := []
    notifications := [] }

/-- Inbox of the C3 scenario: two distinct inbound replies to the same sent
message arrive before a single ingestion run. -/
def c3Inbox : String → List InboxMessage := fun s =>
  if s = "s@x.com" then
    [{ id := "g1", subject := "Re: Hi", fromAddress := "r@y.com",
       fromName := none, receivedDateTime := 200, bodyPreview := "",
       headers := [{ name := "In-Reply-To", value := "<abc@ms>" }] },
     { id := "g2", subject := "Re: Hi", fromAddress := "r@y.com",
       fromName := none, receivedDateTime := 300, bodyPreview := "",
       headers := [{ name := "In-Reply-To", value := "<abc@ms>" }] }]
  else []

set_option maxRecDepth 8000 in
/-- C3 fails on the code when one run processes several new replies to the
same target message: both replies are inserted, but each counter update is
computed from the run-start snapshot (`originalEmail.reply_count || 0`), so
the counter ends at 1 instead of 2 and `replied_at` is overwritten by the
*second* reply's timestamp (the snapshot count is still 0, so the second
insert also believes it is the first reply). -/
theorem reply_counter_stale_snapshot :
    (runIngestion c3Inbox 0 c3Db).email_replies.length = 2 ∧
      (runIngestion c3Inbox 0 c3Db).email_history.map
          (fun e => (e.reply_count, e.replied_at, e.last_reply_at, e.status)) =
        [(some 1, some 300, some 300, "replied")] := by
  decide

/-! ## Infrastructure for the idempotence and bounced-exclusion proofs -/

/-- The data-model invariant on `email_replies`: no two rows share the
(`email_history_id`, `graph_message_id`) key. -/
def ReplyKeysUnique (rs : List ReplyRecord) : Prop :=
  rs.Pairwise fun a b =>
    ¬(a.email_history_id = b.email_history_id ∧ a.graph_message_id = b.graph_message_id)

instance (rs : List ReplyRecord) : Decidable (ReplyKeysUnique rs) := by
  unfold ReplyKeysUnique
  exact List.instDecidablePairwise rs

/-- Every reply key occurs at most once. -/
def AtMostOne (rs : List ReplyRecord) : Prop :=
  ∀ eid gid, replyKeyCount rs eid gid ≤ 1

theorem replyKeyCount_append (l1 l2 : List ReplyRecord) (eid : Nat) (gid : String) :
    replyKeyCount (l1 ++ l2) eid gid = replyKeyCount l1 eid gid + replyKeyCount l2 eid gid := by
  unfold replyKeyCount
  rw [List.filter_append, List.length_append]

theorem replyKeyCount_eq_zero {rs : List ReplyRecord} {eid : Nat} {gid : String} :
    replyKeyCount rs eid gid = 0 ↔
      ∀ r ∈ rs, ¬(r.email_history_id = eid ∧ r.graph_message_id = gid) := by
  unfold replyKeyCount
  rw [List.length_eq_zero, List.filter_eq_nil_iff]
  constructor
  · intro h r hr hk
    have := h r hr
    simp [hk.1, hk.2] at this
  · intro h r hr
    have := h r hr
    simp only [Bool.and_eq_true, beq_iff_eq]
    intro hc
    exact this ⟨hc.1, hc.2⟩

theorem atMostOne_of_unique {rs : List ReplyRecord} (h : ReplyKeysUnique rs) :
    AtMostOne rs := by
  intro eid gid
  induction rs with
  | nil => simp [replyKeyCount]
  | cons r t ih =>
    rw [ReplyKeysUnique, List.pairwise_cons] at h
    have ht := ih h.2
    unfold replyKeyCount at *
    rw [List.filter_cons]
    by_cases hk : (r.email_history_id == eid && r.graph_message_id == gid) = true
    · rw [if_pos hk]
      simp only [beq_iff_eq, Bool.and_eq_true] at hk
      have hzero : replyKeyCount t eid gid = 0 := by
        rw [replyKeyCount_eq_zero]
        intro b hb hbk
        exact h.1 b hb ⟨hk.1.trans hbk.1.symm, hk.2.trans hbk.2.symm⟩
      unfold replyKeyCount at hzero
      simp [hzero]
    · rw [if_neg hk]
      exact ht

theorem replyKeyCount_singleton (rec : ReplyRecord) (eid : Nat) (gid : String) :
    replyKeyCount [rec] eid gid =
      if rec.email_history_id = eid ∧ rec.graph_message_id = gid then 1 else 0 := by
  unfold replyKeyCount
  by_cases h : rec.email_history_id = eid ∧ rec.graph_message_id = gid
  · simp [List.filter_cons, h.1, h.2, h]
  · rw [if_neg h]
    have : (rec.email_history_id == eid && rec.graph_message_id == gid) = false := by
      by_contra hc
      simp only [Bool.not_eq_false, Bool.and_eq_true, beq_iff_eq] at hc
      exact h ⟨hc.1, hc.2⟩
    simp [List.filter_cons, this]

/-- Case analysis of one handler step: either the step leaves the state
unchanged, or the reply had a truthy `in_reply_to` that matched a snapshot
row whose key was not already recorded exactly once, and the insert branch
ran. -/
theorem processReply_cases (db : CrmDb) (idx : List (String × EmailHistory))
    (r : ReplyInfo) :
    processReply db idx r = db ∨
      ∃ irt orig, r.in_reply_to = some irt ∧ irt ≠ "" ∧ matchReply idx irt = some orig ∧
        replyKeyCount db.email_replies orig.id r.graph_message_id ≠ 1 ∧
        processReply db idx r = processReplyCore db orig r := by
  cases hirt : r.in_reply_to with
  | none => exact Or.inl (by simp [processReply, hirt])
  | some irt =>
    by_cases he : irt = ""
    · exact Or.inl (by simp [processReply, hirt, he])
    · cases hm : matchReply idx irt with
      | none => exact Or.inl (by simp [processReply, hirt, he, hm])
      | some orig =>
        by_cases hc : replyKeyCount db.email_replies orig.id r.graph_message_id = 1
        · exact Or.inl (by simp [processReply, hirt, he, hm, hc])
        · exact Or.inr ⟨irt, orig, rfl, he, hm, hc,
            by rw [processReply, hirt]; simp [he, hm, hc]⟩

/-- Inserted reply rows always point at a row indexed for the sender. -/
def TailTargets (idx : List (String × EmailHistory)) (t : List ReplyRecord) : Prop :=
  ∀ rec ∈ t, ∃ orig k, (k, orig) ∈ idx ∧ rec.email_history_id = orig.id

theorem processReply_extend (db : CrmDb) (idx : List (String × EmailHistory))
    (r : ReplyInfo) :
    ∃ t, (processReply db idx r).email_replies = db.email_replies ++ t ∧
      TailTargets idx t := by
  rcases processReply_cases db idx r with h | ⟨irt, orig, _, _, hm, _, h⟩
  · exact ⟨[], by simp [h], by intro rec hrec; simp at hrec⟩
  · refine ⟨[newReplyOf orig r], by simp [h, processReplyCore], ?_⟩
    intro rec hrec
    simp at hrec
    obtain ⟨k, hk⟩ := matchReply_mem hm
    exact ⟨orig, k, hk, by simp [hrec, newReplyOf]⟩

theorem processReply_atMostOne {db : CrmDb} {idx : List (String × EmailHistory)}
    {r : ReplyInfo} (h : AtMostOne db.email_replies) :
    AtMostOne (processReply db idx r).email_replies := by
  rcases processReply_cases db idx r with hs | ⟨irt, orig, _, _, _, hc, hs⟩
  · rw [hs]; exact h
  · rw [hs]
    intro eid gid
    have hle := h eid gid
    simp only [processReplyCore]
    rw [replyKeyCount_append, replyKeyCount_singleton]
    by_cases hk : (newReplyOf orig r).email_history_id = eid ∧
        (newReplyOf orig r).graph_message_id = gid
    · rw [if_pos hk]
      have horig : orig.id = eid ∧ r.graph_message_id = gid := by
        simpa [newReplyOf] using hk
      obtain ⟨hk1, hk2⟩ := horig
      subst hk1
      subst hk2
      omega
    · rw [if_neg hk]
      omega

/-- After a step, the matched key is recorded exactly once. -/
theorem processReply_matched_count {db : CrmDb} {idx : List (String × EmailHistory)}
    {r : ReplyInfo} {irt : String} {orig : EmailHistory}
    (h : AtMostOne db.email_replies) (hirt : r.in_reply_to = some irt) (hne : irt ≠ "")
    (hm : matchReply idx irt = some orig) :
    replyKeyCount (processReply db idx r).email_replies orig.id r.graph_message_id = 1 := by
  rw [processReply, hirt]
  simp only [if_neg hne, hm]
  by_cases hc : replyKeyCount db.email_replies orig.id r.graph_message_id = 1
  · rw [if_pos hc]; exact hc
  · rw [if_neg hc]
    have hle := h orig.id r.graph_message_id
    have hz : replyKeyCount db.email_replies orig.id r.graph_message_id = 0 := by omega
    simp only [processReplyCore]
    rw [replyKeyCount_append, replyKeyCount_singleton, hz]
    simp [newReplyOf]

/-- The fields of an `email_history` row the ingestion job never writes. -/
def FieldsPres (f : EmailHistory → EmailHistory) : Prop :=
  ∀ e, (f e).id = e.id ∧ (f e).sender_email = e.sender_email ∧
    (f e).recipient_email = e.recipient_email ∧ (f e).subject = e.subject ∧
    (f e).message_id = e.message_id ∧ (f e).sent_by = e.sent_by ∧
    (f e).sent_at = e.sent_at

/-- A run's cumulative effect on `email_history`: read-only fields are
preserved, and a row is only ever rewritten to status `replied`, and only
when some row of `allowed` (the run-start snapshot) shares its id. -/
def GoodUpd (allowed : List EmailHistory) (f : EmailHistory → EmailHistory) : Prop :=
  FieldsPres f ∧
    ∀ e, f e = e ∨ ((f e).status = "replied" ∧ ∃ o ∈ allowed, o.id = e.id)

theorem goodUpd_id (allowed : List EmailHistory) : GoodUpd allowed id := by
  constructor
  · intro e; simp
  · intro e; exact Or.inl rfl

theorem goodUpd_comp {allowed : List EmailHistory} {f g : EmailHistory → EmailHistory}
    (hf : GoodUpd allowed f) (hg : GoodUpd allowed g) :
    GoodUpd allowed (fun e => g (f e)) := by
  constructor
  · intro e
    obtain ⟨f1, f2, f3, f4, f5, f6, f7⟩ := hf.1 e
    obtain ⟨g1, g2, g3, g4, g5, g6, g7⟩ := hg.1 (f e)
    exact ⟨g1.trans f1, g2.trans f2, g3.trans f3, g4.trans f4, g5.trans f5,
      g6.trans f6, g7.trans f7⟩
  · intro e
    show g (f e) = e ∨ ((g (f e)).status = "replied" ∧ ∃ o ∈ allowed, o.id = e.id)
    rcases hg.2 (f e) with hge | ⟨hgs, o, ho, hoid⟩
    · rw [hge]
      exact hf.2 e
    · exact Or.inr ⟨hgs, o, ho, hoid.trans (hf.1 e).1⟩

theorem goodUpd_mono {A B : List EmailHistory} {f : EmailHistory → EmailHistory}
    (hAB : ∀ o ∈ A, o ∈ B) (h : GoodUpd A f) : GoodUpd B f := by
  refine ⟨h.1, fun e => ?_⟩
  rcases h.2 e with he | ⟨hs, o, ho, hoid⟩
  · exact Or.inl he
  · exact Or.inr ⟨hs, o, hAB o ho, hoid⟩

theorem updateRowFn_fieldsPres (orig : EmailHistory) (r : ReplyInfo) :
    FieldsPres (updateRowFn orig r) := by
  intro e
  unfold updateRowFn
  by_cases h : (e.id == orig.id) = true <;> simp [h]

theorem updateRowFn_good {allowed : List EmailHistory} {orig : EmailHistory}
    (r : ReplyInfo) (horig : orig ∈ allowed) : GoodUpd allowed (updateRowFn orig r) := by
  refine ⟨updateRowFn_fieldsPres orig r, fun e => ?_⟩
  unfold updateRowFn
  by_cases h : (e.id == orig.id) = true
  · refine Or.inr ⟨by simp [h], orig, horig, ?_⟩
    simp only [beq_iff_eq] at h
    exact h.symm
  · simp [h]

/-- History shape of one handler step. -/
theorem processReply_hist (db : CrmDb) (idx : List (String × EmailHistory))
    (r : ReplyInfo) :
    ∃ f, (processReply db idx r).email_history = db.email_history.map f ∧
      GoodUpd (idx.map Prod.snd) f := by
  rcases processReply_cases db idx r with h | ⟨irt, orig, _, _, hm, _, h⟩
  · exact ⟨id, by simp [h], goodUpd_id _⟩
  · refine ⟨updateRowFn orig r, by simp [h, processReplyCore], ?_⟩
    refine updateRowFn_good r ?_
    obtain ⟨k, hk⟩ := matchReply_mem hm
    exact List.mem_map.mpr ⟨(k, orig), hk, rfl⟩

theorem count_eq_one_extend {rs t : List ReplyRecord} {eid : Nat} {gid : String}
    (h1 : replyKeyCount rs eid gid = 1) (h2 : AtMostOne (rs ++ t)) :
    replyKeyCount (rs ++ t) eid gid = 1 := by
  have := h2 eid gid
  rw [replyKeyCount_append] at this ⊢
  omega

/-- The inner fold: replies only grow (by rows targeting indexed senders),
the at-most-once invariant is preserved, and every candidate reply of the
batch that matches an indexed row ends with its key recorded exactly
once. -/
theorem foldReplies_spec (idx : List (String × EmailHistory)) :
    ∀ (rs : List ReplyInfo) (db : CrmDb), AtMostOne db.email_replies →
      AtMostOne (foldReplies idx db rs).email_replies ∧
      (∃ t, (foldReplies idx db rs).email_replies = db.email_replies ++ t ∧
        TailTargets idx t) ∧
      (∀ r ∈ rs, ∀ irt orig, r.in_reply_to = some irt → irt ≠ "" →
        matchReply idx irt = some orig →
        replyKeyCount (foldReplies idx db rs).email_replies orig.id
          r.graph_message_id = 1) := by
  intro rs
  induction rs with
  | nil =>
    intro db h
    refine ⟨h, ⟨[], by simp [foldReplies], fun rec hrec => by simp at hrec⟩, ?_⟩
    intro r hr
    simp at hr
  | cons r rs ih =>
    intro db h
    have hstep : foldReplies idx db (r :: rs) = foldReplies idx (processReply db idx r) rs := by
      simp [foldReplies]
    have h1 : AtMostOne (processReply db idx r).email_replies := processReply_atMostOne h
    obtain ⟨ha, ⟨t1, ht1, htt1⟩, hc⟩ := ih (processReply db idx r) h1
    obtain ⟨t0, ht0, htt0⟩ := processReply_extend db idx r
    refine ⟨hstep ▸ ha, ⟨t0 ++ t1, ?_, ?_⟩, ?_⟩
    · rw [hstep, ht1, ht0, List.append_assoc]
    · intro rec hrec
      rcases List.mem_append.mp hrec with hh | hh
      · exact htt0 rec hh
      · exact htt1 rec hh
    · intro r' hr' irt orig hirt hne hm
      rcases List.mem_cons.mp hr' with hh | hh
      · subst hh
        have hone := processReply_matched_count h hirt hne hm
        rw [hstep, ht1]
        rw [ht1] at ha
        exact count_eq_one_extend hone ha
      · exact hstep ▸ hc r' hh irt orig hirt hne hm

/-- History shape of the inner fold. -/
theorem foldReplies_hist (idx : List (String × EmailHistory)) :
    ∀ (rs : List ReplyInfo) (db : CrmDb),
      ∃ f, (foldReplies idx db rs).email_history = db.email_history.map f ∧
        GoodUpd (idx.map Prod.snd) f := by
  intro rs
  induction rs with
  | nil => intro db; exact ⟨id, by simp [foldReplies], goodUpd_id _⟩
  | cons r rs ih =>
    intro db
    have hstep : foldReplies idx db (r :: rs) = foldReplies idx (processReply db idx r) rs := by
      simp [foldReplies]
    obtain ⟨f0, hf0, hg0⟩ := processReply_hist db idx r
    obtain ⟨f1, hf1, hg1⟩ := ih (processReply db idx r)
    refine ⟨fun e => f1 (f0 e), ?_, goodUpd_comp hg0 hg1⟩
    rw [hstep, hf1, hf0, List.map_map]
    rfl

theorem buildIndex_snd_mem {emails : List EmailHistory} {p : String × EmailHistory}
    (h : p ∈ buildIndex emails) : p.2 ∈ emails := by
  have : (p.1, p.2) ∈ buildIndex emails := by
    cases p
    exact h
  exact (mem_buildIndex.mp this).1

/-- History shape of a whole run over a list of sender groups. -/
theorem runFold_hist (inboxOf : String → List InboxMessage)
    (allowed : List EmailHistory) :
    ∀ (gs : List (String × List EmailHistory)) (db : CrmDb),
      (∀ sg ∈ gs, ∀ e ∈ sg.2, e ∈ allowed) →
      ∃ f, (gs.foldl (ingestSender inboxOf) db).email_history = db.email_history.map f ∧
        GoodUpd allowed f := by
  intro gs
  induction gs with
  | nil => intro db _; exact ⟨id, by simp, goodUpd_id _⟩
  | cons sg gs ih =>
    intro db hsub
    have hstep : (sg :: gs).foldl (ingestSender inboxOf) db =
        gs.foldl (ingestSender inboxOf) (ingestSender inboxOf db sg) := by
      simp
    obtain ⟨f0, hf0, hg0⟩ :=
      foldReplies_hist (buildIndex sg.2) (fetchInboxReplies (inboxOf sg.1)) db
    have hg0' : GoodUpd allowed f0 := by
      refine goodUpd_mono ?_ hg0
      intro o ho
      obtain ⟨p, hp, hpo⟩ := List.mem_map.mp ho
      exact hpo ▸ hsub sg (by simp) p.2 (buildIndex_snd_mem hp)
    obtain ⟨f1, hf1, hg1⟩ := ih (ingestSender inboxOf db sg)
      (fun sg' h' => hsub sg' (by simp [h']))
    refine ⟨fun e => f1 (f0 e), ?_, goodUpd_comp hg0' hg1⟩
    rw [hstep, hf1]
    show (List.map f1 (ingestSender inboxOf db sg).email_history) = _
    rw [show (ingestSender inboxOf db sg).email_history = db.email_history.map f0 from hf0,
      List.map_map]
    rfl

/-- Inserted rows of a whole run target rows of the processed groups. -/
def RunTailTargets (gs : List (String × List EmailHistory)) (t : List ReplyRecord) : Prop :=
  ∀ rec ∈ t, ∃ o, (∃ sg ∈ gs, o ∈ sg.2) ∧ rec.email_history_id = o.id

/-- Replies side of a whole run over a list of sender groups: the
at-most-once invariant is preserved, replies only grow by rows targeting
rows of the processed groups, and every candidate reply of any group that
matches its group's index ends with its key recorded exactly once. -/
theorem runFold_replies (inboxOf : String → List InboxMessage) :
    ∀ (gs : List (String × List EmailHistory)) (db : CrmDb),
      AtMostOne db.email_replies →
      AtMostOne (gs.foldl (ingestSender inboxOf) db).email_replies ∧
      (∃ t, (gs.foldl (ingestSender inboxOf) db).email_replies = db.email_replies ++ t ∧
        RunTailTargets gs t) ∧
      (∀ sg ∈ gs, ∀ r ∈ fetchInboxReplies (inboxOf sg.1), ∀ irt orig,
        r.in_reply_to = some irt → irt ≠ "" →
        matchReply (buildIndex sg.2) irt = some orig →
        replyKeyCount (gs.foldl (ingestSender inboxOf) db).email_replies orig.id
          r.graph_message_id = 1) := by
  intro gs
  induction gs with
  | nil =>
    intro db h
    refine ⟨h, ⟨[], by simp, fun rec hrec => by simp at hrec⟩, ?_⟩
    intro sg hsg
    simp at hsg
  | cons sg gs ih =>
    intro db h
    have hstep : (sg :: gs).foldl (ingestSender inboxOf) db =
        gs.foldl (ingestSender inboxOf) (ingestSender inboxOf db sg) := by
      simp
    obtain ⟨ha0, ⟨t0, ht0, htt0⟩, hc0⟩ :=
      foldReplies_spec (buildIndex sg.2) (fetchInboxReplies (inboxOf sg.1)) db h
    obtain ⟨ha1, ⟨t1, ht1, htt1⟩, hc1⟩ := ih (ingestSender inboxOf db sg) ha0
    rw [hstep]
    refine ⟨ha1, ⟨t0 ++ t1, ?_, ?_⟩, ?_⟩
    · rw [ht1]
      show (ingestSender inboxOf db sg).email_replies ++ t1 = _
      rw [show (ingestSender inboxOf db sg).email_replies = db.email_replies ++ t0 from ht0,
        List.append_assoc]
    · intro rec hrec
      rcases List.mem_append.mp hrec with hh | hh
      · obtain ⟨orig, k, hk, heq⟩ := htt0 rec hh
        exact ⟨orig, ⟨sg, by simp, @buildIndex_snd_mem sg.2 (k, orig) hk⟩, heq⟩
      · obtain ⟨o, ⟨sg', hsg', ho⟩, heq⟩ := htt1 rec hh
        exact ⟨o, ⟨sg', by simp [hsg'], ho⟩, heq⟩
    · intro sg' hsg' r hr irt orig hirt hne hm
      rcases List.mem_cons.mp hsg' with hh | hh
      · subst hh
        have hone := hc0 r hr irt orig hirt hne hm
        rw [ht1]
        rw [ht1] at ha1
        exact count_eq_one_extend hone ha1
      · exact hc1 sg' hh r hr irt orig hirt hne hm

theorem mem_insertBySentAtDesc {x e : EmailHistory} {l : List EmailHistory} :
    x ∈ insertBySentAtDesc e l ↔ x = e ∨ x ∈ l := by
  induction l with
  | nil => simp [insertBySentAtDesc]
  | cons y ys ih =>
    unfold insertBySentAtDesc
    by_cases h : e.sent_at ≤ y.sent_at
    · rw [if_pos h]
      simp only [List.mem_cons, ih]
      tauto
    · rw [if_neg h]
      simp only [List.mem_cons]

theorem mem_sortBySentAtDesc {x : EmailHistory} {l : List EmailHistory} :
    x ∈ sortBySentAtDesc l ↔ x ∈ l := by
  induction l with
  | nil => simp [sortBySentAtDesc]
  | cons y ys ih =>
    unfold sortBySentAtDesc
    rw [mem_insertBySentAtDesc]
    simp [ih]

theorem mem_sentSnapshot {x : EmailHistory} {db : CrmDb} {sinceDate : Nat}
    (h : x ∈ sentSnapshot db sinceDate) :
    x ∈ db.email_history ∧ eligibleSent sinceDate x = true := by
  unfold sentSnapshot at h
  rw [mem_sortBySentAtDesc] at h
  exact ⟨(List.mem_filter.mp h).1, (List.mem_filter.mp h).2⟩

theorem groupBySender_sub {snap : List EmailHistory} {sg : String × List EmailHistory}
    (h : sg ∈ groupBySender snap) : ∀ e ∈ sg.2, e ∈ snap := by
  unfold groupBySender at h
  obtain ⟨s, _, hs⟩ := List.mem_map.mp h
  intro e he
  rw [← hs] at he
  exact (List.mem_filter.mp he).1

/-- A fold whose every step fixes the accumulator fixes it overall. -/
theorem foldl_fixed {α β : Type} {f : α → β → α} {b : α} {l : List β}
    (h : ∀ x ∈ l, f b x = b) : l.foldl f b = b := by
  induction l with
  | nil => rfl
  | cons x xs ih =>
    rw [List.foldl_cons, h x (by simp)]
    exact ih fun y hy => h y (by simp [hy])

/-! ## Commutation of a run's history update with the snapshot pipeline -/

theorem insertBySentAtDesc_map {F : EmailHistory → EmailHistory}
    (hsent : ∀ e, (F e).sent_at = e.sent_at) (e : EmailHistory) (l : List EmailHistory) :
    insertBySentAtDesc (F e) (l.map F) = (insertBySentAtDesc e l).map F := by
  induction l with
  | nil => simp [insertBySentAtDesc]
  | cons y ys ih =>
    simp only [List.map_cons]
    unfold insertBySentAtDesc
    rw [hsent e, hsent y]
    by_cases h : e.sent_at ≤ y.sent_at
    · rw [if_pos h, if_pos h, ih]
      rfl
    · rw [if_neg h, if_neg h]
      rfl

theorem sortBySentAtDesc_map {F : EmailHistory → EmailHistory}
    (hsent : ∀ e, (F e).sent_at = e.sent_at) (l : List EmailHistory) :
    sortBySentAtDesc (l.map F) = (sortBySentAtDesc l).map F := by
  induction l with
  | nil => simp [sortBySentAtDesc]
  | cons y ys ih =>
    simp only [List.map_cons]
    unfold sortBySentAtDesc
    rw [ih, insertBySentAtDesc_map hsent]

theorem buildIndex_map {F : EmailHistory → EmailHistory}
    (hmid : ∀ e, (F e).message_id = e.message_id) (g : List EmailHistory) :
    buildIndex (g.map F) = (buildIndex g).map fun p => (p.1, F p.2) := by
  rw [buildIndex_eq_flatMap, buildIndex_eq_flatMap, List.map_flatMap, List.flatMap_map]
  congr 1
  funext e
  unfold idxEntries
  rw [hmid e]
  cases e.message_id with
  | none => simp
  | some mid =>
    by_cases h : mid = "" <;> simp [h]

theorem idxGet_map {F : EmailHistory → EmailHistory}
    (idx : List (String × EmailHistory)) (k : String) :
    idxGet (idx.map fun p => (p.1, F p.2)) k = (idxGet idx k).map F := by
  unfold idxGet
  rw [← List.map_reverse, List.find?_map]
  have : ((fun p => p.1 == k) ∘ fun p : String × EmailHistory => (p.1, F p.2)) =
      fun p : String × EmailHistory => p.1 == k := by
    funext p
    rfl
  rw [this]
  cases idx.reverse.find? (fun p => p.1 == k) <;> rfl

theorem matchReply_map {F : EmailHistory → EmailHistory}
    (idx : List (String × EmailHistory)) (irt : String) :
    matchReply (idx.map fun p => (p.1, F p.2)) irt = (matchReply idx irt).map F := by
  unfold matchReply
  rw [idxGet_map, idxGet_map, idxGet_map]
  cases idxGet idx irt with
  | some e => rfl
  | none =>
    cases idxGet idx ("<" ++ irt ++ ">") with
    | some e => rfl
    | none => rfl

/-- Under distinct row ids, a run's update leaves eligibility untouched:
rewritten rows were eligible (non-bounced) to begin with and stay eligible
(status `replied`). -/
theorem eligibleSent_map {db : CrmDb} {sinceDate : Nat} {F : EmailHistory → EmailHistory}
    (hid : (db.email_history.map (·.id)).Nodup)
    (hgood : GoodUpd (sentSnapshot db sinceDate) F) :
    ∀ e ∈ db.email_history, eligibleSent sinceDate (F e) = eligibleSent sinceDate e := by
  intro e he
  rcases hgood.2 e with hfe | ⟨hst, o, ho, hoid⟩
  · rw [hfe]
  · unfold eligibleSent
    rw [(hgood.1 e).2.2.2.2.1, (hgood.1 e).2.2.2.2.2.2]
    congr 1
    have hoe : o = e := by
      refine List.inj_on_of_nodup_map hid (mem_sentSnapshot ho).1 he ?_
      exact hoid
    have helig : eligibleSent sinceDate e = true := hoe ▸ (mem_sentSnapshot ho).2
    have hne : (e.status != "bounced") = true := by
      unfold eligibleSent at helig
      simp only [Bool.and_eq_true] at helig
      exact helig.2
    rw [hst, hne]
    rfl

theorem sentSnapshot_map {db db1 : CrmDb} {sinceDate : Nat} {F : EmailHistory → EmailHistory}
    (heq : db1.email_history = db.email_history.map F)
    (hel : ∀ e ∈ db.email_history,
      eligibleSent sinceDate (F e) = eligibleSent sinceDate e)
    (hsent : ∀ e, (F e).sent_at = e.sent_at) :
    sentSnapshot db1 sinceDate = (sentSnapshot db sinceDate).map F := by
  unfold sentSnapshot
  rw [heq, List.filter_map]
  have hfc : db.email_history.filter (eligibleSent sinceDate ∘ F) =
      db.email_history.filter (eligibleSent sinceDate) :=
    List.filter_congr fun e he => hel e he
  rw [hfc, sortBySentAtDesc_map hsent]

theorem groupBySender_map {snap : List EmailHistory} {F : EmailHistory → EmailHistory}
    (hsender : ∀ e, (F e).sender_email = e.sender_email) :
    groupBySender (snap.map F) =
      (groupBySender snap).map fun sg => (sg.1, sg.2.map F) := by
  unfold groupBySender
  have hkeys : (snap.map F).map (·.sender_email) = snap.map (·.sender_email) := by
    rw [List.map_map]
    exact List.map_congr_left fun e _ => hsender e
  rw [hkeys, List.map_map]
  apply List.map_congr_left
  intro s _
  show (s, (snap.map F).filter fun e => e.sender_email == s) = _
  have : (snap.map F).filter (fun e => e.sender_email == s) =
      (snap.filter fun e => e.sender_email == s).map F := by
    rw [List.filter_map]
    congr 1
    apply List.filter_congr
    intro e _
    show ((F e).sender_email == s) = (e.sender_email == s)
    rw [hsender e]
  rw [this]
  rfl

/-- C1: the reply-ingestion job is idempotent over a fixed inbox state.
Under the data-model invariants (distinct `email_history` ids and unique
reply keys), running the job a second time changes nothing at all: every
reply the second run would match is already recorded exactly once, so its
duplicate check skips the insert, the counter update and the
notification. -/
theorem ingestion_idempotent (inboxOf : String → List InboxMessage) (sinceDate : Nat)
    (db : CrmDb) (hid : (db.email_history.map (·.id)).Nodup)
    (hrep : ReplyKeysUnique db.email_replies) :
    runIngestion inboxOf sinceDate (runIngestion inboxOf sinceDate db) =
      runIngestion inboxOf sinceDate db := by
  have hrun : runIngestion inboxOf sinceDate db =
      (groupBySender (sentSnapshot db sinceDate)).foldl (ingestSender inboxOf) db := rfl
  have hsubgs : ∀ sg ∈ groupBySender (sentSnapshot db sinceDate), ∀ e ∈ sg.2,
      e ∈ sentSnapshot db sinceDate := fun sg h => groupBySender_sub h
  obtain ⟨F, hF, hgood⟩ := runFold_hist inboxOf (sentSnapshot db sinceDate)
    (groupBySender (sentSnapshot db sinceDate)) db hsubgs
  obtain ⟨ha1, ⟨t, ht, htt⟩, hcnt⟩ := runFold_replies inboxOf
    (groupBySender (sentSnapshot db sinceDate)) db (atMostOne_of_unique hrep)
  rw [← hrun] at hF ha1 hcnt
  have hsnap1 : sentSnapshot (runIngestion inboxOf sinceDate db) sinceDate =
      (sentSnapshot db sinceDate).map F :=
    sentSnapshot_map hF (eligibleSent_map hid hgood) fun e => (hgood.1 e).2.2.2.2.2.2
  have hrun2 : runIngestion inboxOf sinceDate (runIngestion inboxOf sinceDate db) =
      (groupBySender (sentSnapshot (runIngestion inboxOf sinceDate db) sinceDate)).foldl
        (ingestSender inboxOf) (runIngestion inboxOf sinceDate db) := rfl
  rw [hrun2, hsnap1, groupBySender_map fun e => (hgood.1 e).2.1, List.foldl_map]
  apply foldl_fixed
  intro sg hsg
  show foldReplies (buildIndex (sg.2.map F)) (runIngestion inboxOf sinceDate db)
      (fetchInboxReplies (inboxOf sg.1)) = runIngestion inboxOf sinceDate db
  unfold foldReplies
  apply foldl_fixed
  intro r hr
  rw [buildIndex_map fun e => (hgood.1 e).2.2.2.2.1]
  cases hirt : r.in_reply_to with
  | none => simp [processReply, hirt]
  | some irt =>
    by_cases he : irt = ""
    · simp [processReply, hirt, he]
    · cases hm : matchReply (buildIndex sg.2) irt with
      | none =>
        have hm2 : matchReply ((buildIndex sg.2).map fun p => (p.1, F p.2)) irt = none := by
          rw [matchReply_map, hm]
          rfl
        simp [processReply, hirt, he, hm2]
      | some orig =>
        have hm2 : matchReply ((buildIndex sg.2).map fun p => (p.1, F p.2)) irt =
            some (F orig) := by
          rw [matchReply_map, hm]
          rfl
        have hcount : replyKeyCount (runIngestion inboxOf sinceDate db).email_replies
            (F orig).id r.graph_message_id = 1 := by
          rw [(hgood.1 orig).1]
          exact hcnt sg hsg r hr irt orig hirt he hm
        simp [processReply, hirt, he, hm2, hcount]

/-- Stored state of the C1 witness scenario. -/
def c1wDb : CrmDb :=
  { email_history :=
      [{ id := 1, sender_email := "s@x.com", recipient_email := "r@y.com",
         subject := "Hi", message_id := some "<abc@ms>", sent_by := some 7,
         reply_count := some 0, sent_at := 100, status := "sent",
         replied_at := none, last_reply_at := none }]
    email_replies := []
    notifications := [] }

/-- Inbox of the C1 witness scenario: one genuine reply, so the first run
records a reply and the second run must skip it. -/
def c1wInbox : String → List InboxMessage := fun s =>
  if s = "s@x.com" then
    [{ id := "g1", subject := "Re: Hi", fromAddress := "r@y.com",
       fromName := some "R", receivedDateTime := 200, bodyPreview := "thanks",
       headers := [{ name := "In-Reply-To", value := "<abc@ms>" }] }]
  else []

set_option maxRecDepth 8000 in
/-- Witness for `ingestion_idempotent` at a concrete instance. -/
theorem ingestion_idempotent_witness :
    ((c1wDb.email_history.map (·.id)).Nodup ∧ ReplyKeysUnique c1wDb.email_replies) ∧
      runIngestion c1wInbox 0 (runIngestion c1wInbox 0 c1wDb) =
        runIngestion c1wInbox 0 c1wDb :=
  ⟨⟨by decide, by decide⟩, ingestion_idempotent c1wInbox 0 c1wDb (by decide) (by decide)⟩

theorem find?_of_nodup_ids {e : EmailHistory} {l : List EmailHistory}
    (he : e ∈ l) (hid : (l.map (·.id)).Nodup) :
    l.find? (fun x => x.id == e.id) = some e := by
  induction l with
  | nil => simp at he
  | cons y ys ih =>
    simp only [List.map_cons, List.nodup_cons] at hid
    rcases List.mem_cons.mp he with hh | hh
    · subst hh
      simp [List.find?_cons]
    · have hne : (y.id == e.id) = false := by
        simp only [beq_eq_false_iff_ne, ne_eq]
        intro hc
        exact hid.1 (hc ▸ List.mem_map.mpr ⟨e, hh, rfl⟩)
      rw [List.find?_cons, hne]
      exact ih hh hid.2

theorem foldReplies_extend (idx : List (String × EmailHistory)) :
    ∀ (rs : List ReplyInfo) (db : CrmDb),
      ∃ t, (foldReplies idx db rs).email_replies = db.email_replies ++ t ∧
        TailTargets idx t := by
  intro rs
  induction rs with
  | nil => intro db; exact ⟨[], by simp [foldReplies], fun rec hrec => by simp at hrec⟩
  | cons r rs ih =>
    intro db
    have hstep : foldReplies idx db (r :: rs) =
        foldReplies idx (processReply db idx r) rs := by
      simp [foldReplies]
    obtain ⟨t0, ht0, htt0⟩ := processReply_extend db idx r
    obtain ⟨t1, ht1, htt1⟩ := ih (processReply db idx r)
    refine ⟨t0 ++ t1, ?_, ?_⟩
    · rw [hstep, ht1, ht0, List.append_assoc]
    · intro rec hrec
      rcases List.mem_append.mp hrec with hh | hh
      · exact htt0 rec hh
      · exact htt1 rec hh

theorem runFold_extend (inboxOf : String → List InboxMessage) :
    ∀ (gs : List (String × List EmailHistory)) (db : CrmDb),
      ∃ t, (gs.foldl (ingestSender inboxOf) db).email_replies = db.email_replies ++ t ∧
        RunTailTargets gs t := by
  intro gs
  induction gs with
  | nil => intro db; exact ⟨[], by simp, fun rec hrec => by simp at hrec⟩
  | cons sg gs ih =>
    intro db
    have hstep : (sg :: gs).foldl (ingestSender inboxOf) db =
        gs.foldl (ingestSender inboxOf) (ingestSender inboxOf db sg) := by
      simp
    obtain ⟨t0, ht0, htt0⟩ :=
      foldReplies_extend (buildIndex sg.2) (fetchInboxReplies (inboxOf sg.1)) db
    obtain ⟨t1, ht1, htt1⟩ := ih (ingestSender inboxOf db sg)
    refine ⟨t0 ++ t1, ?_, ?_⟩
    · rw [hstep, ht1]
      show (ingestSender inboxOf db sg).email_replies ++ t1 = _
      rw [show (ingestSender inboxOf db sg).email_replies = db.email_replies ++ t0 from ht0,
        List.append_assoc]
    · intro rec hrec
      rcases List.mem_append.mp hrec with hh | hh
      · obtain ⟨orig, k, hk, heq⟩ := htt0 rec hh
        exact ⟨orig, ⟨sg, by simp, @buildIndex_snd_mem sg.2 (k, orig) hk⟩, heq⟩
      · obtain ⟨o, ⟨sg2, hsg2, ho⟩, heq⟩ := htt1 rec hh
        exact ⟨o, ⟨sg2, by simp [hsg2], ho⟩, heq⟩

/-- C10: a bounced sent message is never a reply-match target.  It is
excluded from the run's snapshot, its `email_history` row survives a run
verbatim (no counter, status or timestamp change), and the run adds no
`email_replies` row pointing at it. -/
theorem bounced_never_reply_target (inboxOf : String → List InboxMessage)
    (sinceDate : Nat) (db : CrmDb) (hid : (db.email_history.map (·.id)).Nodup)
    (e : EmailHistory) (he : e ∈ db.email_history) (hb : e.status = "bounced") :
    e ∉ sentSnapshot db sinceDate ∧
      (runIngestion inboxOf sinceDate db).email_history.find? (fun x => x.id == e.id) =
        some e ∧
      (runIngestion inboxOf sinceDate db).email_replies.filter
          (fun rec => rec.email_history_id == e.id) =
        db.email_replies.filter (fun rec => rec.email_history_id == e.id) := by
  have hrun : runIngestion inboxOf sinceDate db =
      (groupBySender (sentSnapshot db sinceDate)).foldl (ingestSender inboxOf) db := rfl
  have hsubgs : ∀ sg ∈ groupBySender (sentSnapshot db sinceDate), ∀ x ∈ sg.2,
      x ∈ sentSnapshot db sinceDate := fun sg h => groupBySender_sub h
  obtain ⟨F, hF, hgood⟩ := runFold_hist inboxOf (sentSnapshot db sinceDate)
    (groupBySender (sentSnapshot db sinceDate)) db hsubgs
  rw [← hrun] at hF
  have hnotelig : ∀ o ∈ sentSnapshot db sinceDate, o.id = e.id → False := by
    intro o ho hoid
    have hoe : o = e := List.inj_on_of_nodup_map hid (mem_sentSnapshot ho).1 he hoid
    have helig := (mem_sentSnapshot ho).2
    rw [hoe] at helig
    unfold eligibleSent at helig
    simp only [Bool.and_eq_true, bne_iff_ne, ne_eq] at helig
    exact helig.2 hb
  refine ⟨fun hmem => hnotelig e hmem rfl, ?_, ?_⟩
  · have hFe : F e = e := by
      rcases hgood.2 e with hh | ⟨_, o, ho, hoid⟩
      · exact hh
      · exact absurd hoid.symm fun hc => hnotelig o ho (by rw [hc])
    rw [hF, List.find?_map]
    have hpred : ((fun x => x.id == e.id) ∘ F) = fun x => x.id == e.id := by
      funext x
      show ((F x).id == e.id) = (x.id == e.id)
      rw [(hgood.1 x).1]
    rw [hpred, find?_of_nodup_ids he hid]
    simp [hFe]
  · obtain ⟨t, ht, htt⟩ := runFold_extend inboxOf
      (groupBySender (sentSnapshot db sinceDate)) db
    rw [← hrun] at ht
    rw [ht, List.filter_append]
    have htnil : t.filter (fun rec => rec.email_history_id == e.id) = [] := by
      rw [List.filter_eq_nil_iff]
      intro rec hrec
      obtain ⟨o, ⟨sg, hsg, ho⟩, heq⟩ := htt rec hrec
      simp only [beq_iff_eq]
      intro hc
      exact hnotelig o (groupBySender_sub hsg o ho) (heq ▸ hc)
    rw [htnil, List.append_nil]

/-- The bounced row of the C10 witness scenario: it has a provider id and
is inside the window, yet must never be matched. -/
def c10wBounced : EmailHistory :=
  { id := 1, sender_email := "s@x.com", recipient_email := "r@y.com",
    subject := "Hi", message_id := some "<abc@ms>", sent_by := some 7,
    reply_count := some 0, sent_at := 100, status := "bounced",
    replied_at := none, last_reply_at := none }

/-- Stored state of the C10 witness scenario. -/
def c10wDb : CrmDb :=
  { email_history :=
      [c10wBounced,
       { id := 2, sender_email := "s@x.com", recipient_email := "q@z.com",
         subject := "Yo", message_id := some "<def@ms>", sent_by := some 7,
         reply_count := some 0, sent_at := 150, status := "sent",
         replied_at := none, last_reply_at := none }]
    email_replies := []
    notifications := [] }

/-- Inbox of the C10 witness scenario: an inbound reply that cites the
*bounced* message's provider id. -/
def c10wInbox : String → List InboxMessage := fun s =>
  if s = "s@x.com" then
    [{ id := "g1", subject := "Re: Hi", fromAddress := "r@y.com",
       fromName := none, receivedDateTime := 200, bodyPreview := "",
       headers := [{ name := "In-Reply-To", value := "<abc@ms>" }] }]
  else []

set_option maxRecDepth 8000 in
/-- Witness for `bounced_never_reply_target` at a concrete instance. -/
theorem bounced_never_reply_target_witness :
    ((c10wDb.email_history.map (·.id)).Nodup ∧ c10wBounced ∈ c10wDb.email_history ∧
        c10wBounced.status = "bounced") ∧
      (c10wBounced ∉ sentSnapshot c10wDb 0 ∧
        (runIngestion c10wInbox 0 c10wDb).email_history.find?
            (fun x => x.id == c10wBounced.id) = some c10wBounced ∧
        (runIngestion c10wInbox 0 c10wDb).email_replies.filter
            (fun rec => rec.email_history_id == c10wBounced.id) =
          c10wDb.email_replies.filter
            (fun rec => rec.email_history_id == c10wBounced.id)) :=
  ⟨⟨by decide, by decide, by decide⟩,
    bounced_never_reply_target c10wInbox 0 c10wDb (by decide) c10wBounced
      (by decide) (by decide)⟩

/-! ## Outbound send path (`supabase/functions/send-email/index.ts`)

The Graph API is modelled as explicit response data: each query the
handler can issue is a constructor, and `resp` maps a query to the
(successful) response body or `none` for a failed request. -/

/-- Where a message search is issued. -/
inductive MailFolder
  | allFolders
  | sentItems
deriving DecidableEq

/-- The two `$filter` shapes the handler uses when looking for the parent
message (the conversation-id query also carries `$orderby=receivedDateTime
desc&$top=1`, which the response data is assumed to honour). -/
inductive GraphFilter
  | byInternetMessageId (mid : String)
  | byConversationId (cid : String)
deriving DecidableEq

/-- `resolvedParentMessageId.replace(/'/g, "''")`. -/
def escapeQuotes (s : String) : String :=
  String.mk (s.data.flatMap fun c => if c = '\'' then [c, c] else [c])

/-- The `searchMessages` helper: on a successful response with a nonempty
`value` array, the first hit's id; otherwise `null`. -/
def searchMessages (resp : MailFolder → GraphFilter → Option (List String))
    (folder : MailFolder) (q : GraphFilter) : Option String :=
  match resp folder q with
  | some (x :: _) => some x
  | _ => none

/-- The multi-strategy provider message lookup: by internet message id over
all messages, then over Sent Items; if still unresolved, by conversation id
over all messages, then over Sent Items — each strategy only when the
previous ones produced nothing, and each id only when truthy. -/
def lookupGraphMessageId (resp : MailFolder → GraphFilter → Option (List String))
    (parentMessageId parentConversationId : Option String) : Option String :=
  let viaMessageId :=
    match parentMessageId with
    | some mid =>
      if mid = "" then none
      else
        let q := GraphFilter.byInternetMessageId (escapeQuotes mid)
        match searchMessages resp .allFolders q with
        | some g => some g
        | none => searchMessages resp .sentItems q
    | none => none
  match viaMessageId with
  | some g => some g
  | none =>
    match parentConversationId with
    | some cid =>
      if cid = "" then none
      else
        let q := GraphFilter.byConversationId cid
        match searchMessages resp .allFolders q with
        | some g => some g
        | none => searchMessages resp .sentItems q
    | none => none

/-- How the handler dispatches the message. -/
inductive SendPath
  | replyInPlace (graphId : String)
  | newMail
deriving DecidableEq

/-- `if (isReply && graphMessageId) sendReplyEmail(...) else sendNewEmail(...)`. -/
def chooseSendPath (isReply : Bool) (g : Option String) : SendPath :=
  match g with
  | some gid => if isReply && gid != "" then .replyInPlace gid else .newMail
  | none => .newMail

/-! ## Thread-id resolution (send handler, reply threading) -/

/-- The parent `email_history` row columns read when resolving threading. -/
structure ParentEmailRow where
  message_id : Option String
  thread_id : Option String
  conversation_id : Option String
deriving DecidableEq

/-- The three resolved threading values. -/
structure ThreadingResolution where
  resolvedThreadId : Option String
  resolvedParentMessageId : Option String
  resolvedParentConversationId : Option String
deriving DecidableEq

/-- The handler's threading resolution: `resolvedThreadId = threadId ||
parentEmailId || null`; then, when a parent id is given and either parent
identifier is missing, the parent row is read (`parentRow` is the
`.single()` response) to fill the missing identifiers, and the parent's
`thread_id` is adopted only when the resolved thread id is still falsy. -/
def resolveThreading (threadId parentEmailId parentMessageId parentConversationId :
    Option String) (parentRow : Option ParentEmailRow) : ThreadingResolution :=
  let rtid0 := if jsStr threadId then threadId else
    if jsStr parentEmailId then parentEmailId else none
  let rpmid0 := parentMessageId
  let rpcid0 := jsOrNone parentConversationId
  if jsStr parentEmailId && (!jsStr rpmid0 || !jsStr rpcid0) then
    match parentRow with
    | some p =>
      let rpmid1 := if !jsStr rpmid0 then p.message_id else rpmid0
      let rpcid1 := if !jsStr rpcid0 then jsOrNone p.conversation_id else rpcid0
      let rtid1 := if jsStr p.thread_id && !jsStr rtid0 then p.thread_id else rtid0
      { resolvedThreadId := rtid1
        resolvedParentMessageId := rpmid1
        resolvedParentConversationId := rpcid1 }
    | none =>
      { resolvedThreadId := rtid0
        resolvedParentMessageId := rpmid0
        resolvedParentConversationId := rpcid0 }
  else
    { resolvedThreadId := rtid0
      resolvedParentMessageId := rpmid0
      resolvedParentConversationId := rpcid0 }

/-- `const finalThreadId = resolvedThreadId || emailRecord.id`. -/
def finalThreadId (resolvedThreadId : Option String) (newRecordId : String) : String :=
  match resolvedThreadId with
  | some t => if t = "" then newRecordId else t
  | none => newRecordId

/-! ## Message-ID reconciliation (send handler, capture retry loop) -/

/-- A Sent Items message as selected by the capture query
(`$select=internetMessageId,subject,sentDateTime,toRecipients,conversationId`). -/
structure SentItemMsg where
  internetMessageId : Option String
  subject : String
  sentDateTime : Int
  toRecipients : List String
  conversationId : Option String
deriving DecidableEq

/-- `recentMessages`: only messages sent under 90 seconds ago (`Date.now()
- msgTime < 90000`). -/
def selectRecent (msgs : List SentItemMsg) (nowMs : Int) : List SentItemMsg :=
  msgs.filter fun m => decide (nowMs - m.sentDateTime < 90000)

/-- The left-brace character, kept out of string literals. -/
def obr : Char := Char.ofNat 123

/-- The right-brace character. -/
def cbr : Char := Char.ofNat 125

/-- Consume `[^X]+ X X` (for `X` the closing brace) at the head of the
list; the body is greedy but, as the regex engine also finds, no shorter
body can succeed because body characters are exactly the non-brace ones. -/
def matchTemplateBody (l : List Char) : Option (List Char) :=
  let body := l.takeWhile fun c => c ≠ cbr
  let rest := l.dropWhile fun c => c ≠ cbr
  if body.isEmpty then none
  else
    match rest with
    | c1 :: c2 :: r => if c1 = cbr && c2 = cbr then some r else none
    | _ => none

/-- Fuelled scanner for template-token removal; every recursive call is on
a strictly shorter list, so fuel equal to the input length never runs
out. -/
def stripTemplatesGo : Nat → List Char → List Char
  | 0, l => l
  | _ + 1, [] => []
  | fuel + 1, c1 :: rest =>
    if c1 = obr then
      match rest with
      | c2 :: rest2 =>
        if c2 = obr then
          match matchTemplateBody rest2 with
          | some r => stripTemplatesGo fuel r
          | none => c1 :: stripTemplatesGo fuel rest
        else c1 :: stripTemplatesGo fuel rest
      | [] => [c1]
    else c1 :: stripTemplatesGo fuel rest

/-- `s.replace(<double-brace template token regex>, '')`: leftmost,
non-overlapping removal of template tokens. -/
def stripTemplates (l : List Char) : List Char :=
  stripTemplatesGo l.length l

/-- `s.replace(/\s+/g, ' ')`. -/
def collapseWsAux (prevWs : Bool) : List Char → List Char
  | [] => []
  | c :: rest =>
    if c.isWhitespace then
      if prevWs then collapseWsAux true rest
      else ' ' :: collapseWsAux true rest
    else c :: collapseWsAux false rest

/-- JavaScript `trim`. -/
def trimWsL (l : List Char) : List Char :=
  ((l.dropWhile Char.isWhitespace).reverse.dropWhile Char.isWhitespace).reverse

/-- `normalizeSubject`: strip template tokens, collapse whitespace runs,
trim, lowercase. -/
def normalizeSubject (s : String) : String :=
  String.mk ((trimWsL (collapseWsAux false (stripTemplates s.data))).map Char.toLower)

/-- Substring containment (`String.prototype.includes`). -/
def containsSub : List Char → List Char → Bool
  | [], needle => needle.isEmpty
  | h :: t, needle => needle.isPrefixOf (h :: t) || containsSub t needle

/-- The capture loop's fuzzy subject comparison. -/
def subjectSimilar (subject msgSubject : String) : Bool :=
  let ns := (normalizeSubject subject).data
  let nm := (normalizeSubject msgSubject).data
  (String.mk (ns.take 15) == String.mk (nm.take 15)) ||
    containsSub ns (nm.take 15) ||
    containsSub nm (ns.take 15) ||
    (msgSubject == subject)

/-- Case-insensitive recipient comparison against the cleaned `to`. -/
def recipientMatch (tos : List String) (cleanedTo : String) : Bool :=
  tos.any fun a => lowerStr a == lowerStr cleanedTo

/-- First recent message matching recipient plus (similar subject, or a
candidate pool of at most two). -/
def scanRecipientSubject (recent : List SentItemMsg) (cleanedTo subject : String) :
    Option SentItemMsg :=
  recent.find? fun m =>
    recipientMatch m.toRecipients cleanedTo &&
      (subjectSimilar subject m.subject || decide (recent.length ≤ 2))

/-- The mutable pair the loop threads through attempts. -/
structure CaptureState where
  messageId : Option String
  conversationId : Option String
deriving DecidableEq

/-- What one loop iteration does to the control flow. -/
inductive AttemptResult
  | exitLoop (st : CaptureState)
  | continueLoop (st : CaptureState)
deriving DecidableEq

/-- One capture attempt over the response of one Sent Items poll: a single
recent message is taken unconditionally (with a hard `break`); otherwise
the recipient+subject scan, then — if the id is still falsy — the
exact-subject scan, each taking the first hit. -/
def runAttempt (resp : Option (List SentItemMsg)) (nowMs : Int)
    (cleanedTo subject : String) (st : CaptureState) : AttemptResult :=
  match resp with
  | none => .continueLoop st
  | some msgs =>
    let recent := selectRecent msgs nowMs
    if recent.length = 1 then
      match recent with
      | m :: _ =>
        .exitLoop { messageId := m.internetMessageId
                    conversationId := jsOrNone m.conversationId }
      | [] => .continueLoop st
    else
      let st1 :=
        match scanRecipientSubject recent cleanedTo subject with
        | some m =>
          { messageId := m.internetMessageId, conversationId := jsOrNone m.conversationId }
        | none => st
      if jsStr st1.messageId then .continueLoop st1
      else
        match recent.find? (fun m => m.subject == subject) with
        | some m =>
          .continueLoop { messageId := m.internetMessageId
                          conversationId := jsOrNone m.conversationId }
        | none => .continueLoop st1

/-- `maxRetries`. -/
def maxCaptureRetries : Nat := 4

/-- `await new Promise(... 2000 + retries * 1000)`: the delay before each
attempt, indexed by the pre-increment retry counter. -/
def captureDelayMs (r : Nat) : Nat := 2000 + r * 1000

/-- The capture loop: before each attempt the `while` guard re-checks the
id's truthiness; the fuel counts the remaining attempts of the fixed
budget. -/
def captureLoopGo (responses : Nat → Option (List SentItemMsg)) (nows : Nat → Int)
    (cleanedTo subject : String) : Nat → Nat → CaptureState → CaptureState
  | 0, _, st => st
  | fuel + 1, i, st =>
    if jsStr st.messageId then st
    else
      match runAttempt (responses i) (nows i) cleanedTo subject st with
      | .exitLoop st1 => st1
      | .continueLoop st1 => captureLoopGo responses nows cleanedTo subject fuel (i + 1) st1

/-- Message-ID reconciliation over the per-attempt poll responses
`responses` and per-attempt clock `nows`. -/
def captureMessageId (responses : Nat → Option (List SentItemMsg)) (nows : Nat → Int)
    (cleanedTo subject : String) : CaptureState :=
  captureLoopGo responses nows cleanedTo subject maxCaptureRetries 0
    { messageId := none, conversationId := none }

/-- The unconditional `email_history` update issued after the loop. -/
structure MessageIdUpdate where
  status : String
  is_valid_open : Bool
  message_id : Option String
  conversation_id : Option String
deriving DecidableEq

/-- The handler's success payload. -/
structure SendResponse where
  success : Bool
  emailId : String
  threadId : String
deriving DecidableEq

/-- Everything the handler does after dispath and capture: persist whatever
the loop produced (nulls included) and answer success — no branch fails the
request on an empty capture. -/
def reconcileOutcome (responses : Nat → Option (List SentItemMsg)) (nows : Nat → Int)
    (cleanedTo subject emailId threadId : String) : MessageIdUpdate × SendResponse :=
  let st := captureMessageId responses nows cleanedTo subject
  ({ status := "sent", is_valid_open := true, message_id := st.messageId,
     conversation_id := st.conversationId },
   { success := true, emailId := emailId, threadId := threadId })

/-! ## Recipient validation (send handler entry) -/

/-- No whitespace and no `@` — the character class of the address regex. -/
def noWsNoAt (l : List Char) : Bool :=
  l.all fun c => !c.isWhitespace && c ≠ '@'

/-- A dot with at least one character on each side. -/
def hasInnerDot (l : List Char) : Bool :=
  ((l.drop 1).dropLast).contains '.'

/-- Decides the handler's address regex: one nonempty run of
non-whitespace non-`@` characters, an `@`, and a nonempty remainder of the
same class containing a dot with nonempty sides.  Since the class excludes
`@`, the separating `@` is necessarily the first one. -/
def emailRegexMatch (s : String) : Bool :=
  let l := s.data
  let a := l.takeWhile fun c => c ≠ '@'
  let rest := l.dropWhile fun c => c ≠ '@'
  match rest with
  | '@' :: m => !a.isEmpty && noWsNoAt a && !m.isEmpty && noWsNoAt m && hasInnerDot m
  | _ => false

/-- `to.trim()`. -/
def trimStr (s : String) : String :=
  String.mk (trimWsL s.data)

/-- Externally visible effects of the send handler before dispatch. -/
inductive SendEffect
  | insertEmailHistory
  | tokenRequest
  | graphCall
deriving DecidableEq

/-- The handler's terminal answer for the entry phase. -/
inductive SendResult
  | errorMissingFields
  | errorInvalidRecipient
  | proceeded
deriving DecidableEq

/-- The entry phase of the send handler: required-field check, then the
recipient-syntax check — both before the history insert, the token request
and any Graph call.  `rest` stands for the whole remainder of the handler
(which is where every effect happens). -/
def handlerEntry (toAddr subject fromAddr : String)
    (rest : List SendEffect × SendResult) : List SendEffect × SendResult :=
  if toAddr = "" || subject = "" || fromAddr = "" then ([], .errorMissingFields)
  else if !emailRegexMatch (trimStr toAddr) then ([], .errorInvalidRecipient)
  else rest

/-- Normal form of the lookup for a truthy stored internet message id. -/
theorem lookupGraphMessageId_eq (resp : MailFolder → GraphFilter → Option (List String))
    (mid : String) (cid : Option String) (hmid : mid ≠ "") :
    lookupGraphMessageId resp (some mid) cid =
      match searchMessages resp .allFolders (.byInternetMessageId (escapeQuotes mid)) with
      | some g => some g
      | none =>
        match searchMessages resp .sentItems (.byInternetMessageId (escapeQuotes mid)) with
        | some g => some g
        | none =>
          match cid with
          | some c =>
            if c = "" then none
            else
              match searchMessages resp .allFolders (.byConversationId c) with
              | some g => some g
              | none => searchMessages resp .sentItems (.byConversationId c)
          | none => none := by
  unfold lookupGraphMessageId
  dsimp only
  rw [if_neg hmid]
  cases searchMessages resp .allFolders (.byInternetMessageId (escapeQuotes mid)) with
  | some g => rfl
  | none =>
    cases searchMessages resp .sentItems (.byInternetMessageId (escapeQuotes mid)) with
    | some g => rfl
    | none => rfl

/-- C4: the provider message lookup tries, in order, internet-message-id
over all folders, internet-message-id over Sent Items, conversation-id
over all folders, conversation-id over Sent Items, each only when the
previous strategies produced nothing, and returns the first hit; when no
strategy hits, the lookup yields `none` — not an error — and the dispatch
then picks the disconnected `sendMail` path. -/
theorem graph_lookup_strategy_order
    (resp : MailFolder → GraphFilter → Option (List String)) (mid : String)
    (cid : Option String) (hmid : mid ≠ "") :
    (∀ g, searchMessages resp .allFolders (.byInternetMessageId (escapeQuotes mid)) =
        some g → lookupGraphMessageId resp (some mid) cid = some g) ∧
    (searchMessages resp .allFolders (.byInternetMessageId (escapeQuotes mid)) = none →
      ∀ g, searchMessages resp .sentItems (.byInternetMessageId (escapeQuotes mid)) =
        some g → lookupGraphMessageId resp (some mid) cid = some g) ∧
    (∀ c, cid = some c → c ≠ "" →
      searchMessages resp .allFolders (.byInternetMessageId (escapeQuotes mid)) = none →
      searchMessages resp .sentItems (.byInternetMessageId (escapeQuotes mid)) = none →
      ∀ g, searchMessages resp .allFolders (.byConversationId c) = some g →
        lookupGraphMessageId resp (some mid) cid = some g) ∧
    (∀ c, cid = some c → c ≠ "" →
      searchMessages resp .allFolders (.byInternetMessageId (escapeQuotes mid)) = none →
      searchMessages resp .sentItems (.byInternetMessageId (escapeQuotes mid)) = none →
      searchMessages resp .allFolders (.byConversationId c) = none →
      ∀ g, searchMessages resp .sentItems (.byConversationId c) = some g →
        lookupGraphMessageId resp (some mid) cid = some g) ∧
    (searchMessages resp .allFolders (.byInternetMessageId (escapeQuotes mid)) = none →
      searchMessages resp .sentItems (.byInternetMessageId (escapeQuotes mid)) = none →
      (∀ c, cid = some c → searchMessages resp .allFolders (.byConversationId c) = none) →
      (∀ c, cid = some c → searchMessages resp .sentItems (.byConversationId c) = none) →
      lookupGraphMessageId resp (some mid) cid = none) ∧
    (∀ isReply, chooseSendPath isReply none = SendPath.newMail) := by
  refine ⟨?_, ?_, ?_, ?_, ?_, ?_⟩
  · intro g hg
    rw [lookupGraphMessageId_eq resp mid cid hmid]
    simp only [hg]
  · intro h1 g hg
    rw [lookupGraphMessageId_eq resp mid cid hmid]
    simp only [h1, hg]
  · intro c hc hcne h1 h2 g hg
    rw [lookupGraphMessageId_eq resp mid cid hmid]
    simp only [h1, h2, hc, if_neg hcne, hg]
  · intro c hc hcne h1 h2 h3 g hg
    rw [lookupGraphMessageId_eq resp mid cid hmid]
    simp only [h1, h2, hc, if_neg hcne, h3, hg]
  · intro h1 h2 h3 h4
    rw [lookupGraphMessageId_eq resp mid cid hmid]
    simp only [h1, h2]
    cases hc : cid with
    | none => rfl
    | some c =>
      by_cases hcne : c = ""
      · simp only [if_pos hcne]
      · simp only [if_neg hcne, h3 c hc, h4 c hc]
  · intro isReply
    rfl

/-- Graph responses of the C4 witness scenario: both internet-message-id
searches miss (one empty, one failed), the conversation-id search over all
folders hits. -/
def c4wResp : MailFolder → GraphFilter → Option (List String) := fun f q =>
  match f, q with
  | .allFolders, .byInternetMessageId _ => some []
  | .sentItems, .byInternetMessageId _ => none
  | .allFolders, .byConversationId _ => some ["G1", "G2"]
  | .sentItems, .byConversationId _ => some ["G3"]

/-- Witness for `graph_lookup_strategy_order` at a concrete instance. -/
theorem graph_lookup_strategy_order_witness :
    ("<m@x>" : String) ≠ "" ∧
      ((∀ g, searchMessages c4wResp .allFolders
          (.byInternetMessageId (escapeQuotes "<m@x>")) = some g →
          lookupGraphMessageId c4wResp (some "<m@x>") (some "CV") = some g) ∧
        (searchMessages c4wResp .allFolders
            (.byInternetMessageId (escapeQuotes "<m@x>")) = none →
          ∀ g, searchMessages c4wResp .sentItems
            (.byInternetMessageId (escapeQuotes "<m@x>")) = some g →
            lookupGraphMessageId c4wResp (some "<m@x>") (some "CV") = some g) ∧
        (∀ c, (some "CV" : Option String) = some c → c ≠ "" →
          searchMessages c4wResp .allFolders
            (.byInternetMessageId (escapeQuotes "<m@x>")) = none →
          searchMessages c4wResp .sentItems
            (.byInternetMessageId (escapeQuotes "<m@x>")) = none →
          ∀ g, searchMessages c4wResp .allFolders (.byConversationId c) = some g →
            lookupGraphMessageId c4wResp (some "<m@x>") (some "CV") = some g) ∧
        (∀ c, (some "CV" : Option String) = some c → c ≠ "" →
          searchMessages c4wResp .allFolders
            (.byInternetMessageId (escapeQuotes "<m@x>")) = none →
          searchMessages c4wResp .sentItems
            (.byInternetMessageId (escapeQuotes "<m@x>")) = none →
          searchMessages c4wResp .allFolders (.byConversationId c) = none →
          ∀ g, searchMessages c4wResp .sentItems (.byConversationId c) = some g →
            lookupGraphMessageId c4wResp (some "<m@x>") (some "CV") = some g) ∧
        (searchMessages c4wResp .allFolders
            (.byInternetMessageId (escapeQuotes "<m@x>")) = none →
          searchMessages c4wResp .sentItems
            (.byInternetMessageId (escapeQuotes "<m@x>")) = none →
          (∀ c, (some "CV" : Option String) = some c →
            searchMessages c4wResp .allFolders (.byConversationId c) = none) →
          (∀ c, (some "CV" : Option String) = some c →
            searchMessages c4wResp .sentItems (.byConversationId c) = none) →
          lookupGraphMessageId c4wResp (some "<m@x>") (some "CV") = none) ∧
        (∀ isReply, chooseSendPath isReply none = SendPath.newMail)) :=
  ⟨by decide, graph_lookup_strategy_order c4wResp "<m@x>" (some "CV") (by decide)⟩

/-- C7 at its failing input: replying to `A` (itself a reply whose own
`thread_id` is `"ROOT"`) with `parentEmailId = "A"` and no explicit
`threadId` resolves the new record's thread id to `"A"`, not to `"ROOT"`:
`resolvedThreadId` is already truthy (`threadId || parentEmailId`), so the
guarded `parent.thread_id` adoption — despite the code's own comment — can
never fire once a parent id is present.  The root-send half of the claim
does hold: with neither hint the resolved id stays null and the final
thread id is the new record's own id. -/
theorem reply_thread_ignores_parent_thread :
    (resolveThreading none (some "A") none none
        (some { message_id := some "<m@x>", thread_id := some "ROOT",
                conversation_id := some "CV" })).resolvedThreadId = some "A" ∧
      finalThreadId (some "A") "B" = "A" ∧
      (some "A" : Option String) ≠ some "ROOT" ∧
      (resolveThreading none none none none none).resolvedThreadId = none ∧
      finalThreadId none "B" = "B" := by
  decide

/-- The state carried out of a loop iteration, for either control flow. -/
def attemptStateOf : AttemptResult → CaptureState
  | .exitLoop st => st
  | .continueLoop st => st

/-- A capture attempt either leaves the captured message id unchanged or
takes it from a message of the under-90-seconds-old pool of its poll
response. -/
theorem runAttempt_source (resp : Option (List SentItemMsg)) (nowMs : Int)
    (cleanedTo subject : String) (st : CaptureState) :
    (attemptStateOf (runAttempt resp nowMs cleanedTo subject st)).messageId =
        st.messageId ∨
      ∃ msgs, resp = some msgs ∧ ∃ m ∈ selectRecent msgs nowMs,
        (attemptStateOf (runAttempt resp nowMs cleanedTo subject st)).messageId =
          m.internetMessageId := by
  cases resp with
  | none => exact Or.inl rfl
  | some msgs =>
    by_cases hlen : (selectRecent msgs nowMs).length = 1
    · cases hrec : selectRecent msgs nowMs with
      | nil => rw [hrec] at hlen; simp at hlen
      | cons m tl =>
        have hrun : runAttempt (some msgs) nowMs cleanedTo subject st =
            .exitLoop { messageId := m.internetMessageId
                        conversationId := jsOrNone m.conversationId } := by
          have hlen2 : (m :: tl).length = 1 := hrec ▸ hlen
          simp [runAttempt, hrec, hlen2]
        refine Or.inr ⟨msgs, rfl, m, by rw [hrec]; simp, ?_⟩
        rw [hrun]
        rfl
    · have hrun : runAttempt (some msgs) nowMs cleanedTo subject st =
          (let st1 :=
             match scanRecipientSubject (selectRecent msgs nowMs) cleanedTo subject with
             | some m =>
               { messageId := m.internetMessageId
                 conversationId := jsOrNone m.conversationId }
             | none => st
           if jsStr st1.messageId then AttemptResult.continueLoop st1
           else
             match (selectRecent msgs nowMs).find? (fun m => m.subject == subject) with
             | some m =>
               AttemptResult.continueLoop
                 { messageId := m.internetMessageId
                   conversationId := jsOrNone m.conversationId }
             | none => AttemptResult.continueLoop st1) := by
        simp only [runAttempt]
        rw [if_neg hlen]
      rw [hrun]
      cases hscan : scanRecipientSubject (selectRecent msgs nowMs) cleanedTo subject with
      | some m =>
        have hmem : m ∈ selectRecent msgs nowMs := List.mem_of_find?_eq_some hscan
        simp only [hscan]
        by_cases hjs : jsStr m.internetMessageId = true
        · rw [if_pos hjs]
          exact Or.inr ⟨msgs, rfl, m, hmem, rfl⟩
        · rw [if_neg hjs]
          cases hf : (selectRecent msgs nowMs).find? (fun x => x.subject == subject) with
          | some m2 =>
            exact Or.inr ⟨msgs, rfl, m2, List.mem_of_find?_eq_some hf, rfl⟩
          | none =>
            exact Or.inr ⟨msgs, rfl, m, hmem, rfl⟩
      | none =>
        simp only [hscan]
        by_cases hjs : jsStr st.messageId = true
        · rw [if_pos hjs]
          exact Or.inl rfl
        · rw [if_neg hjs]
          cases hf : (selectRecent msgs nowMs).find? (fun x => x.subject == subject) with
          | some m2 =>
            exact Or.inr ⟨msgs, rfl, m2, List.mem_of_find?_eq_some hf, rfl⟩
          | none =>
            exact Or.inl rfl

/-- Any id the loop ends with comes from some attempt's recent pool. -/
theorem captureLoopGo_source (responses : Nat → Option (List SentItemMsg))
    (nows : Nat → Int) (cleanedTo subject : String) :
    ∀ (fuel i : Nat) (st : CaptureState) (mid : String),
      (captureLoopGo responses nows cleanedTo subject fuel i st).messageId = some mid →
      st.messageId = some mid ∨
        ∃ j, i ≤ j ∧ j < i + fuel ∧ ∃ msgs, responses j = some msgs ∧
          ∃ m ∈ selectRecent msgs (nows j), m.internetMessageId = some mid := by
  intro fuel
  induction fuel with
  | zero => intro i st mid h; exact Or.inl h
  | succ fuel ih =>
    intro i st mid h
    rw [captureLoopGo] at h
    by_cases hjs : jsStr st.messageId = true
    · rw [if_pos hjs] at h
      exact Or.inl h
    · rw [if_neg hjs] at h
      have hsrc := runAttempt_source (responses i) (nows i) cleanedTo subject st
      cases hrun : runAttempt (responses i) (nows i) cleanedTo subject st with
      | exitLoop st1 =>
        rw [hrun] at h hsrc
        rcases hsrc with hs | ⟨msgs, hresp, m, hm, hmid⟩
        · exact Or.inl (by rw [← hs]; exact h)
        · exact Or.inr ⟨i, Nat.le_refl i, by omega, msgs, hresp, m, hm, by
            rw [← hmid]; exact h⟩
      | continueLoop st1 =>
        rw [hrun] at h hsrc
        rcases ih (i + 1) st1 mid h with hs | ⟨j, hj1, hj2, rest⟩
        · rcases hsrc with hs2 | ⟨msgs, hresp, m, hm, hmid⟩
          · exact Or.inl (by rw [← hs2]; exact hs)
          · exact Or.inr ⟨i, Nat.le_refl i, by omega, msgs, hresp, m, hm, by
              rw [← hmid]; exact hs⟩
        · exact Or.inr ⟨j, by omega, by omega, rest⟩

/-- When no attempt ever sees a recent message, the loop ends empty. -/
theorem captureLoopGo_nothing (responses : Nat → Option (List SentItemMsg))
    (nows : Nat → Int) (cleanedTo subject : String) :
    ∀ (fuel i : Nat),
      (∀ j, i ≤ j → j < i + fuel → responses j = none ∨
        ∃ msgs, responses j = some msgs ∧ selectRecent msgs (nows j) = []) →
      captureLoopGo responses nows cleanedTo subject fuel i
        { messageId := none, conversationId := none } =
        { messageId := none, conversationId := none } := by
  intro fuel
  induction fuel with
  | zero => intro i _; rfl
  | succ fuel ih =>
    intro i hnone
    rw [captureLoopGo]
    rw [if_neg (by simp [jsStr])]
    have hrun : runAttempt (responses i) (nows i) cleanedTo subject
        { messageId := none, conversationId := none } =
        .continueLoop { messageId := none, conversationId := none } := by
      rcases hnone i (Nat.le_refl i) (by omega) with hr | ⟨msgs, hr, hrec⟩
      · rw [hr]
        rfl
      · rw [hr]
        simp only [runAttempt]
        rw [hrec]
        simp [scanRecipientSubject, jsStr]
    rw [hrun]
    exact ih (i + 1) fun j hj1 hj2 => hnone j (by omega) (by omega)

/-- C8: Message-ID reconciliation polls a fixed budget of four attempts
with strictly growing delays; any identifier it captures comes from a
message under 90 seconds old seen by one of the attempts; and when no
attempt yields anything the loop ends with both identifiers `null`, the
record update persists those nulls, and the handler still answers
success — reconciliation failure is non-fatal. -/
theorem message_id_reconciliation (responses : Nat → Option (List SentItemMsg))
    (nows : Nat → Int) (cleanedTo subject emailId threadId : String) :
    (maxCaptureRetries = 4 ∧
      ∀ i j, i < j → j < maxCaptureRetries → captureDelayMs i < captureDelayMs j) ∧
    (∀ mid, (captureMessageId responses nows cleanedTo subject).messageId = some mid →
      ∃ i, i < maxCaptureRetries ∧ ∃ msgs, responses i = some msgs ∧
        ∃ m ∈ selectRecent msgs (nows i), m.internetMessageId = some mid) ∧
    ((∀ i, i < maxCaptureRetries → responses i = none ∨
        ∃ msgs, responses i = some msgs ∧ selectRecent msgs (nows i) = []) →
      reconcileOutcome responses nows cleanedTo subject emailId threadId =
        ({ status := "sent", is_valid_open := true, message_id := none,
           conversation_id := none },
         { success := true, emailId := emailId, threadId := threadId })) := by
  refine ⟨⟨rfl, ?_⟩, ?_, ?_⟩
  · intro i j hij hj
    unfold captureDelayMs
    omega
  · intro mid h
    rcases captureLoopGo_source responses nows cleanedTo subject maxCaptureRetries 0
        { messageId := none, conversationId := none } mid h with hs | ⟨j, _, hj2, rest⟩
    · exact absurd hs (by simp)
    · exact ⟨j, by omega, rest⟩
  · intro hnone
    unfold reconcileOutcome captureMessageId
    rw [captureLoopGo_nothing responses nows cleanedTo subject maxCaptureRetries 0
      (fun j hj1 hj2 => hnone j (by omega))]

/-- Poll responses of the C8 witness scenario: every attempt fails. -/
def c8wResponses : Nat → Option (List SentItemMsg) := fun _ => none

/-- Per-attempt clock of the C8 witness scenario. -/
def c8wNows : Nat → Int := fun _ => 0

/-- Witness for `message_id_reconciliation` at a concrete instance. -/
theorem message_id_reconciliation_witness :
    (∀ i, i < maxCaptureRetries → c8wResponses i = none ∨
        ∃ msgs, c8wResponses i = some msgs ∧ selectRecent msgs (c8wNows i) = []) ∧
      reconcileOutcome c8wResponses c8wNows "r@y.com" "Hi" "E1" "T1" =
        ({ status := "sent", is_valid_open := true, message_id := none,
           conversation_id := none },
         { success := true, emailId := "E1", threadId := "T1" }) :=
  ⟨fun _ _ => Or.inl rfl,
    (message_id_reconciliation c8wResponses c8wNows "r@y.com" "Hi" "E1" "T1").2.2
      fun _ _ => Or.inl rfl⟩

/-- C9: a send request whose recipient fails the syntax check is rejected
in the entry phase: the handler answers the invalid-recipient error and
the effect trace is empty — no `email_history` insert, no token request,
no Graph call, whatever the remainder of the handler would have done. -/
theorem invalid_recipient_rejected_before_effects
    (toAddr subject fromAddr : String) (rest : List SendEffect × SendResult)
    (hto : toAddr ≠ "") (hsub : subject ≠ "") (hfrom : fromAddr ≠ "")
    (hbad : emailRegexMatch (trimStr toAddr) = false) :
    handlerEntry toAddr subject fromAddr rest = ([], .errorInvalidRecipient) := by
  unfold handlerEntry
  rw [if_neg (by simp [hto, hsub, hfrom]), if_pos (by simp [hbad])]

/-- Witness for `invalid_recipient_rejected_before_effects` at a concrete
instance (an address with an inner space). -/
theorem invalid_recipient_rejected_witness :
    (("bad address@x.com" : String) ≠ "" ∧ ("Hi" : String) ≠ "" ∧
        ("s@x.com" : String) ≠ "" ∧
        emailRegexMatch (trimStr "bad address@x.com") = false) ∧
      handlerEntry "bad address@x.com" "Hi" "s@x.com"
          ([SendEffect.insertEmailHistory, SendEffect.tokenRequest,
            SendEffect.graphCall], .proceeded) =
        ([], .errorInvalidRecipient) :=
  ⟨⟨by decide, by decide, by decide, by decide⟩,
    invalid_recipient_rejected_before_effects "bad address@x.com" "Hi" "s@x.com"
      ([SendEffect.insertEmailHistory, SendEffect.tokenRequest,
        SendEffect.graphCall], .proceeded)
      (by decide) (by decide) (by decide) (by decide)⟩

/-! ## Thread assembly (entity email-history component, `threads` memo) -/

/-- The `email_history` columns the component selects. -/
structure EmailHistoryItem where
  id : String
  subject : String
  recipient_email : String
  recipient_name : Option String
  sender_email : String
  body : Option String
  status : String
  sent_at : Nat
  bounce_type : Option String
  bounce_reason : Option String
  is_valid_open : Option Bool
  open_count : Option Nat
  reply_count : Option Nat
  thread_id : Option String
deriving DecidableEq

/-- The `email_replies` columns the component selects. -/
structure EmailReplyItem where
  id : String
  from_email : String
  from_name : Option String
  received_at : Nat
  body_preview : Option String
  subject : Option String
deriving DecidableEq

/-- Direction tag of a `ThreadMessage` (the source's `type` field). -/
inductive MsgKind
  | sent
  | received
deriving DecidableEq

/-- One entry of a thread's combined message list. -/
structure ThreadMessage where
  id : String
  kind : MsgKind
  timestamp : Nat
  subject : Option String
  body : Option String
  from_email : String
  from_name : Option String
  to_email : String
  to_name : Option String
  status : Option String
  bounce_type : Option String
  bounce_reason : Option String
  is_valid_open : Option Bool
  open_count : Option Nat
  originalEmail : Option EmailHistoryItem
  originalReply : Option EmailReplyItem
deriving DecidableEq

/-- The derived `EmailThread` object. -/
structure EmailThread where
  threadId : String
  subject : String
  messages : List ThreadMessage
  lastActivity : Nat
  totalMessages : Nat
  hasReplies : Bool
  hasBounce : Bool
  latestStatus : String
deriving DecidableEq

/-- Grouping key: `email.thread_id || email.id`. -/
def threadKeyOf (e : EmailHistoryItem) : String :=
  match e.thread_id with
  | some t => if t = "" then e.id else t
  | none => e.id

/-- `threadMap`: one group per distinct key in first-occurrence order, each
group in input order. -/
def groupByThread (emails : List EmailHistoryItem) : List (String × List EmailHistoryItem) :=
  (dedupFirst (emails.map threadKeyOf)).map
    fun k => (k, emails.filter fun e => threadKeyOf e == k)

/-- Insertion step of a stable ascending sort (ECMAScript `sort` with a
numeric ascending comparator). -/
def insertByAsc {α : Type} (key : α → Nat) (e : α) : List α → List α
  | [] => [e]
  | y :: ys => if key y < key e then y :: insertByAsc key e ys else e :: y :: ys

/-- Stable ascending insertion sort by a numeric key. -/
def sortByAsc {α : Type} (key : α → Nat) : List α → List α
  | [] => []
  | x :: xs => insertByAsc key x (sortByAsc key xs)

/-- Insertion step of a stable descending sort. -/
def insertByDesc {α : Type} (key : α → Nat) (e : α) : List α → List α
  | [] => [e]
  | y :: ys => if key e < key y then y :: insertByDesc key e ys else e :: y :: ys

/-- Stable descending insertion sort by a numeric key. -/
def sortByDesc {α : Type} (key : α → Nat) : List α → List α
  | [] => []
  | x :: xs => insertByDesc key x (sortByDesc key xs)

/-- Fuelled stripper for the leading-`Re:` prefix-run regex (`^(Re:\s*)+`,
case-insensitive): repeatedly consume `re:` plus trailing whitespace. -/
def stripReRun : Nat → List Char → List Char
  | 0, l => l
  | fuel + 1, l =>
    match l with
    | c1 :: c2 :: rest =>
      if c1.toLower = 'r' ∧ c2.toLower = 'e' then
        match rest with
        | ':' :: rest2 => stripReRun fuel (rest2.dropWhile Char.isWhitespace)
        | _ => l
      else l
    | _ => l

/-- The thread label: the earliest message's subject with the leading
`Re:` repetitions removed, trimmed. -/
def threadSubjectOf (subject : String) : String :=
  String.mk (trimWsL (stripReRun subject.data.length subject.data))

/-- The `'sent'` entry pushed for one outgoing email (`senderName || null`
supplies the display name). -/
def sentMsgOf (sn : Option String) (e : EmailHistoryItem) : ThreadMessage :=
  { id := e.id, kind := .sent, timestamp := e.sent_at, subject := some e.subject,
    body := e.body, from_email := e.sender_email, from_name := jsOrNone sn,
    to_email := e.recipient_email, to_name := e.recipient_name,
    status := some e.status, bounce_type := e.bounce_type,
    bounce_reason := e.bounce_reason, is_valid_open := e.is_valid_open,
    open_count := e.open_count, originalEmail := some e, originalReply := none }

/-- The `'received'` entry pushed for one reply attached to `e`. -/
def recvMsgOf (sn : Option String) (e : EmailHistoryItem) (r : EmailReplyItem) :
    ThreadMessage :=
  { id := r.id, kind := .received, timestamp := r.received_at, subject := r.subject,
    body := r.body_preview, from_email := r.from_email, from_name := r.from_name,
    to_email := e.sender_email, to_name := jsOrNone sn,
    status := none, bounce_type := none, bounce_reason := none,
    is_valid_open := none, open_count := none,
    originalEmail := none, originalReply := some r }

/-- The combined message list of a thread before sorting: for each email
of the (sorted) group, its `'sent'` entry followed by its replies'
`'received'` entries. -/
def threadMessagesOf (sn : Option String) (repliesMap : String → List EmailReplyItem)
    (threadEmails : List EmailHistoryItem) : List ThreadMessage :=
  threadEmails.flatMap fun e =>
    sentMsgOf sn e :: (repliesMap e.id).map (recvMsgOf sn e)

/-- `hasBounce`: some email of the thread has a truthy `bounce_type`. -/
def hasBounceOf (threadEmails : List EmailHistoryItem) : Bool :=
  threadEmails.any fun e => jsStr e.bounce_type

/-- `hasReplies`: a received entry is present, or some email carries a
positive reply counter. -/
def hasRepliesOf (messages : List ThreadMessage)
    (threadEmails : List EmailHistoryItem) : Bool :=
  messages.any (fun m => m.kind == .received) ||
    threadEmails.any fun e => decide (e.reply_count.getD 0 > 0)

/-- The thread-level derived status, in the handler's priority order. -/
def latestStatusOf (threadEmails : List EmailHistoryItem)
    (messages : List ThreadMessage) : String :=
  if hasBounceOf threadEmails then "bounced"
  else if hasRepliesOf messages threadEmails then "replied"
  else if threadEmails.any (fun e => e.status == "opened") then "opened"
  else if threadEmails.any (fun e => e.status == "delivered") then "delivered"
  else "sent"

/-- One thread object, assembled from a key and its email group
(`repliesMap` maps an email id to its fetched replies, `[]` when
absent). -/
def mkThread (sn : Option String) (repliesMap : String → List EmailReplyItem)
    (k : String) (group : List EmailHistoryItem) : EmailThread :=
  let threadEmails := sortByAsc (·.sent_at) group
  let subject :=
    match threadEmails with
    | first :: _ => threadSubjectOf first.subject
    | [] => ""
  let messages := sortByAsc (·.timestamp) (threadMessagesOf sn repliesMap threadEmails)
  let lastActivity :=
    match messages.getLast? with
    | some m => m.timestamp
    | none =>
      match threadEmails with
      | first :: _ => first.sent_at
      | [] => 0
  { threadId := k, subject := subject, messages := messages,
    lastActivity := lastActivity, totalMessages := messages.length,
    hasReplies := hasRepliesOf messages threadEmails,
    hasBounce := hasBounceOf threadEmails,
    latestStatus := latestStatusOf threadEmails messages }

/-- The `threads` memo: group, assemble each thread, and sort the threads
by last activity, newest first. -/
def buildThreads (sn : Option String) (repliesMap : String → List EmailReplyItem)
    (emails : List EmailHistoryItem) : List EmailThread :=
  sortByDesc (·.lastActivity)
    ((groupByThread emails).map fun kg => mkThread sn repliesMap kg.1 kg.2)

theorem insertByAsc_perm {α : Type} (key : α → Nat) (e : α) (l : List α) :
    (insertByAsc key e l).Perm (e :: l) := by
  induction l with
  | nil => exact List.Perm.refl _
  | cons y ys ih =>
    unfold insertByAsc
    by_cases h : key y < key e
    · rw [if_pos h]
      exact (ih.cons y).trans (List.Perm.swap e y ys)
    · rw [if_neg h]

theorem sortByAsc_perm {α : Type} (key : α → Nat) (l : List α) :
    (sortByAsc key l).Perm l := by
  induction l with
  | nil => exact List.Perm.refl _
  | cons x xs ih =>
    exact (insertByAsc_perm key x (sortByAsc key xs)).trans (ih.cons x)

theorem insertByDesc_perm {α : Type} (key : α → Nat) (e : α) (l : List α) :
    (insertByDesc key e l).Perm (e :: l) := by
  induction l with
  | nil => exact List.Perm.refl _
  | cons y ys ih =>
    unfold insertByDesc
    by_cases h : key e < key y
    · rw [if_pos h]
      exact (ih.cons y).trans (List.Perm.swap e y ys)
    · rw [if_neg h]

theorem sortByDesc_perm {α : Type} (key : α → Nat) (l : List α) :
    (sortByDesc key l).Perm l := by
  induction l with
  | nil => exact List.Perm.refl _
  | cons x xs ih =>
    exact (insertByDesc_perm key x (sortByDesc key xs)).trans (ih.cons x)

theorem insertByAsc_sorted {α : Type} (key : α → Nat) (e : α) {l : List α}
    (h : l.Pairwise fun a b => key a ≤ key b) :
    (insertByAsc key e l).Pairwise fun a b => key a ≤ key b := by
  induction l with
  | nil => simp [insertByAsc]
  | cons y ys ih =>
    rw [List.pairwise_cons] at h
    unfold insertByAsc
    by_cases hc : key y < key e
    · rw [if_pos hc]
      rw [List.pairwise_cons]
      refine ⟨?_, ih h.2⟩
      intro b hb
      rcases List.mem_cons.mp ((insertByAsc_perm key e ys).mem_iff.mp hb) with hb | hb
      · exact hb ▸ Nat.le_of_lt hc
      · exact h.1 b hb
    · rw [if_neg hc]
      rw [List.pairwise_cons]
      refine ⟨?_, List.pairwise_cons.mpr h⟩
      intro b hb
      rcases List.mem_cons.mp hb with hb | hb
      · exact hb ▸ Nat.le_of_not_lt hc
      · exact Nat.le_trans (Nat.le_of_not_lt hc) (h.1 b hb)

theorem sortByAsc_sorted {α : Type} (key : α → Nat) (l : List α) :
    (sortByAsc key l).Pairwise fun a b => key a ≤ key b := by
  induction l with
  | nil => simp [sortByAsc]
  | cons x xs ih => exact insertByAsc_sorted key x ih

theorem insertByDesc_sorted {α : Type} (key : α → Nat) (e : α) {l : List α}
    (h : l.Pairwise fun a b => key b ≤ key a) :
    (insertByDesc key e l).Pairwise fun a b => key b ≤ key a := by
  induction l with
  | nil => simp [insertByDesc]
  | cons y ys ih =>
    rw [List.pairwise_cons] at h
    unfold insertByDesc
    by_cases hc : key e < key y
    · rw [if_pos hc]
      rw [List.pairwise_cons]
      refine ⟨?_, ih h.2⟩
      intro b hb
      rcases List.mem_cons.mp ((insertByDesc_perm key e ys).mem_iff.mp hb) with hb | hb
      · exact hb ▸ Nat.le_of_lt hc
      · exact h.1 b hb
    · rw [if_neg hc]
      rw [List.pairwise_cons]
      refine ⟨?_, List.pairwise_cons.mpr h⟩
      intro b hb
      rcases List.mem_cons.mp hb with hb | hb
      · exact hb ▸ Nat.le_of_not_lt hc
      · exact Nat.le_trans (h.1 b hb) (Nat.le_of_not_lt hc)

theorem sortByDesc_sorted {α : Type} (key : α → Nat) (l : List α) :
    (sortByDesc key l).Pairwise fun a b => key b ≤ key a := by
  induction l with
  | nil => simp [sortByDesc]
  | cons x xs ih => exact insertByDesc_sorted key x ih

theorem perm_any {α : Type} {l1 l2 : List α} (h : l1.Perm l2) (p : α → Bool) :
    l1.any p = l2.any p := by
  cases hx : l2.any p
  · rw [List.any_eq_false] at hx ⊢
    intro x hmem
    exact hx x (h.mem_iff.mp hmem)
  · rw [List.any_eq_true] at hx ⊢
    obtain ⟨x, hmem, hp⟩ := hx
    exact ⟨x, h.mem_iff.mpr hmem, hp⟩

theorem nodup_map_pairwise {α β : Type} {f : α → β} {l : List α}
    (h : (l.map f).Nodup) : l.Pairwise fun a b => f a ≠ f b := by
  induction l with
  | nil => exact List.Pairwise.nil
  | cons x t ih =>
    rw [List.map_cons, List.nodup_cons] at h
    rw [List.pairwise_cons]
    exact ⟨fun b hb hc => h.1 (hc ▸ List.mem_map.mpr ⟨b, hb, rfl⟩), ih h.2⟩

theorem pairwise_nodup_map {α β : Type} {f : α → β} {l : List α}
    (h : l.Pairwise fun a b => f a ≠ f b) : (l.map f).Nodup := by
  induction l with
  | nil => simp
  | cons x t ih =>
    rw [List.pairwise_cons] at h
    rw [List.map_cons, List.nodup_cons]
    refine ⟨?_, ih h.2⟩
    intro hc
    obtain ⟨b, hb, hfb⟩ := List.mem_map.mp hc
    exact h.1 b hb hfb.symm

/-- Two sorted-ascending permutations over pairwise-distinct keys are
equal. -/
theorem eq_of_perm_sortedAsc {α : Type} (key : α → Nat) {l1 l2 : List α}
    (h : l1.Perm l2) (s1 : l1.Pairwise fun a b => key a ≤ key b)
    (s2 : l2.Pairwise fun a b => key a ≤ key b)
    (nd : (l1.map key).Nodup) : l1 = l2 := by
  have inst : IsAntisymm α fun a b => key a < key b :=
    ⟨fun a b h1 h2 => absurd (Nat.lt_trans h1 h2) (Nat.lt_irrefl _)⟩
  have nd2 : (l2.map key).Nodup := ((h.map key).nodup_iff).mp nd
  exact @List.eq_of_perm_of_sorted α (fun a b => key a < key b) inst l1 l2 h
    ((s1.and (nodup_map_pairwise nd)).imp fun hab => Nat.lt_of_le_of_ne hab.1 hab.2)
    ((s2.and (nodup_map_pairwise nd2)).imp fun hab => Nat.lt_of_le_of_ne hab.1 hab.2)

/-- Two sorted-descending permutations over pairwise-distinct keys are
equal. -/
theorem eq_of_perm_sortedDesc {α : Type} (key : α → Nat) {l1 l2 : List α}
    (h : l1.Perm l2) (s1 : l1.Pairwise fun a b => key b ≤ key a)
    (s2 : l2.Pairwise fun a b => key b ≤ key a)
    (nd : (l1.map key).Nodup) : l1 = l2 := by
  have inst : IsAntisymm α fun a b => key b < key a :=
    ⟨fun a b h1 h2 => absurd (Nat.lt_trans h1 h2) (Nat.lt_irrefl _)⟩
  have nd2 : (l2.map key).Nodup := ((h.map key).nodup_iff).mp nd
  exact @List.eq_of_perm_of_sorted α (fun a b => key b < key a) inst l1 l2 h
    ((s1.and (nodup_map_pairwise nd)).imp
      fun hab => Nat.lt_of_le_of_ne hab.1 (Ne.symm hab.2))
    ((s2.and (nodup_map_pairwise nd2)).imp
      fun hab => Nat.lt_of_le_of_ne hab.1 (Ne.symm hab.2))

theorem any_map_general {α β : Type} {f : α → β} {l : List α} {p : β → Bool} :
    (l.map f).any p = l.any fun a => p (f a) := by
  induction l with
  | nil => rfl
  | cons x t ih => simp [List.any_cons, ih]

/-- The derived status of §4.5, expressed directly over a thread's email
group and the replies map: any bounce → `bounced`; else any reply present
(a fetched reply row or a positive reply counter) → `replied`; else any
email `opened` → `opened`; else any email `delivered` → `delivered`; else
`sent`. -/
def threadStatusSpec (g : List EmailHistoryItem)
    (repliesMap : String → List EmailReplyItem) : String :=
  if g.any (fun e => jsStr e.bounce_type) then "bounced"
  else if (g.any (fun e => !(repliesMap e.id).isEmpty) ||
      g.any fun e => decide (e.reply_count.getD 0 > 0)) then "replied"
  else if g.any (fun e => e.status == "opened") then "opened"
  else if g.any (fun e => e.status == "delivered") then "delivered"
  else "sent"

theorem any_congr_fun {α : Type} {l : List α} {p q : α → Bool}
    (h : ∀ a ∈ l, p a = q a) : l.any p = l.any q := by
  induction l with
  | nil => rfl
  | cons x t ih =>
    simp only [List.any_cons, h x (by simp)]
    rw [ih fun a ha => h a (by simp [ha])]

theorem mkThread_latestStatus (sn : Option String)
    (repliesMap : String → List EmailReplyItem) (k : String)
    (group : List EmailHistoryItem) :
    (mkThread sn repliesMap k group).latestStatus = threadStatusSpec group repliesMap := by
  have hperm := sortByAsc_perm (fun e : EmailHistoryItem => e.sent_at) group
  have hb : hasBounceOf (sortByAsc (·.sent_at) group) =
      group.any fun e => jsStr e.bounce_type := perm_any hperm _
  have hrecv : ∀ e : EmailHistoryItem,
      ((sentMsgOf sn e :: (repliesMap e.id).map (recvMsgOf sn e)).any
        fun m => m.kind == MsgKind.received) = !(repliesMap e.id).isEmpty := by
    intro e
    rw [List.any_cons]
    have h1 : ((sentMsgOf sn e).kind == MsgKind.received) = false := rfl
    rw [h1]
    cases hr : repliesMap e.id with
    | nil => rfl
    | cons r t =>
      simp [any_map_general, recvMsgOf]
  have hmsgs : ((sortByAsc (·.timestamp)
        (threadMessagesOf sn repliesMap (sortByAsc (·.sent_at) group))).any
        fun m => m.kind == MsgKind.received) =
      group.any fun e => !(repliesMap e.id).isEmpty := by
    rw [perm_any (sortByAsc_perm _ _)]
    unfold threadMessagesOf
    rw [List.any_flatMap]
    rw [perm_any hperm]
    exact any_congr_fun fun e _ => hrecv e
  have hrep : hasRepliesOf
      (sortByAsc (·.timestamp)
        (threadMessagesOf sn repliesMap (sortByAsc (·.sent_at) group)))
      (sortByAsc (·.sent_at) group) =
      (group.any (fun e => !(repliesMap e.id).isEmpty) ||
        group.any fun e => decide (e.reply_count.getD 0 > 0)) := by
    unfold hasRepliesOf
    rw [hmsgs, perm_any hperm]
  have hop : ((sortByAsc (·.sent_at) group).any fun e => e.status == "opened") =
      group.any fun e => e.status == "opened" := perm_any hperm _
  have hdel : ((sortByAsc (·.sent_at) group).any fun e => e.status == "delivered") =
      group.any fun e => e.status == "delivered" := perm_any hperm _
  show latestStatusOf (sortByAsc (·.sent_at) group)
      (sortByAsc (·.timestamp)
        (threadMessagesOf sn repliesMap (sortByAsc (·.sent_at) group))) =
    threadStatusSpec group repliesMap
  unfold latestStatusOf threadStatusSpec
  rw [hb, hrep, hop, hdel]

/-- Every produced thread is the assembly of its own key's filter
group. -/
theorem buildThreads_mem_decomp {sn : Option String}
    {rm : String → List EmailReplyItem} {emails : List EmailHistoryItem}
    {t : EmailThread} (h : t ∈ buildThreads sn rm emails) :
    t = mkThread sn rm t.threadId (emails.filter fun e => threadKeyOf e == t.threadId) := by
  unfold buildThreads at h
  have h2 := (sortByDesc_perm (fun t : EmailThread => t.lastActivity) _).mem_iff.mp h
  obtain ⟨kg, hkg, hteq⟩ := List.mem_map.mp h2
  unfold groupByThread at hkg
  obtain ⟨k, _, hkg2⟩ := List.mem_map.mp hkg
  rw [← hkg2] at hteq
  have hkid : t.threadId = k := by
    rw [← hteq]
    rfl
  rw [hkid]
  exact hteq.symm

/-- C6: for every assembled thread, the derived status follows the
priority chain of §4.5 over that thread's email group: bounce dominates,
then replies (recorded rows or positive counters), then `opened`, then
`delivered`, else `sent`. -/
theorem thread_status_priority (sn : Option String)
    (rm : String → List EmailReplyItem) (emails : List EmailHistoryItem) :
    ∀ t ∈ buildThreads sn rm emails,
      t.latestStatus =
        threadStatusSpec (emails.filter fun e => threadKeyOf e == t.threadId) rm := by
  intro t ht
  have hd := buildThreads_mem_decomp ht
  calc t.latestStatus
      = (mkThread sn rm t.threadId
          (emails.filter fun e => threadKeyOf e == t.threadId)).latestStatus := by
        rw [← hd]
    _ = threadStatusSpec (emails.filter fun e => threadKeyOf e == t.threadId) rm :=
        mkThread_latestStatus sn rm t.threadId _

/-- Emails of the C6 witness scenario: one thread whose single email both
bounced and has a recorded reply. -/
def c6wEmails : List EmailHistoryItem :=
  [{ id := "a", subject := "Hi", recipient_email := "r@y.com",
     recipient_name := none, sender_email := "s@x.com", body := none,
     status := "sent", sent_at := 10, bounce_type := some "hard",
     bounce_reason := some "mailbox full", is_valid_open := none,
     open_count := none, reply_count := some 1, thread_id := some "T" }]

/-- Replies map of the C6 witness scenario. -/
def c6wRm : String → List EmailReplyItem := fun i =>
  if i = "a" then
    [{ id := "r1", from_email := "r@y.com", from_name := none,
       received_at := 20, body_preview := some "pong", subject := some "Re: Hi" }]
  else []

/-- The thread the C6 witness scenario produces. -/
def c6wThread : EmailThread :=
  mkThread none c6wRm "T" (c6wEmails.filter fun e => threadKeyOf e == "T")

/-- Witness for `thread_status_priority` at a concrete instance: the
thread has both a bounce and a reply and reports `bounced`, not
`replied`. -/
theorem thread_status_priority_witness :
    c6wThread ∈ buildThreads none c6wRm c6wEmails ∧
      (c6wThread.latestStatus =
          threadStatusSpec (c6wEmails.filter fun e => threadKeyOf e == c6wThread.threadId)
            c6wRm ∧
        c6wThread.hasBounce = true ∧ c6wThread.hasReplies = true ∧
        c6wThread.latestStatus = "bounced") :=
  ⟨by decide,
    thread_status_priority none c6wRm c6wEmails c6wThread (by decide),
    by decide, by decide, by decide⟩

theorem mem_dedupFirstAux {x : String} :
    ∀ {seen l : List String}, x ∈ dedupFirstAux seen l ↔ x ∈ l ∧ ¬seen.contains x := by
  intro seen l
  induction l generalizing seen with
  | nil => simp [dedupFirstAux]
  | cons y t ih =>
    unfold dedupFirstAux
    by_cases hy : seen.contains y
    · rw [if_pos hy, ih]
      constructor
      · rintro ⟨hx, hs⟩
        exact ⟨by simp [hx], hs⟩
      · rintro ⟨hx, hs⟩
        rcases List.mem_cons.mp hx with hx | hx
        · exact absurd (hx ▸ hy) hs
        · exact ⟨hx, hs⟩
    · rw [if_neg hy]
      constructor
      · intro hx
        rcases List.mem_cons.mp hx with hx | hx
        · subst hx
          exact ⟨by simp, hy⟩
        · have h2 := ih.mp hx
          have hseen : ¬seen.contains x := by
            intro hc
            have : x ∈ y :: seen := List.mem_cons_of_mem y (List.elem_iff.mp hc)
            exact h2.2 (List.elem_iff.mpr this)
          exact ⟨by simp [h2.1], hseen⟩
      · rintro ⟨hx, hs⟩
        rcases List.mem_cons.mp hx with hx | hx
        · exact hx ▸ List.mem_cons_self _ _
        · by_cases hxy : x = y
          · exact hxy ▸ List.mem_cons_self _ _
          · refine List.mem_cons_of_mem _ (ih.mpr ⟨hx, ?_⟩)
            intro hc
            rcases List.mem_cons.mp (List.elem_iff.mp hc) with hc2 | hc2
            · exact hxy hc2
            · exact hs (List.elem_iff.mpr hc2)

theorem mem_dedupFirst {x : String} {l : List String} :
    x ∈ dedupFirst l ↔ x ∈ l := by
  unfold dedupFirst
  rw [mem_dedupFirstAux]
  simp

theorem nodup_dedupFirstAux : ∀ (seen l : List String), (dedupFirstAux seen l).Nodup := by
  intro seen l
  induction l generalizing seen with
  | nil => simp [dedupFirstAux]
  | cons y t ih =>
    unfold dedupFirstAux
    by_cases hy : seen.contains y
    · rw [if_pos hy]
      exact ih seen
    · rw [if_neg hy]
      rw [List.nodup_cons]
      refine ⟨?_, ih (y :: seen)⟩
      intro hc
      have h2 := (mem_dedupFirstAux.mp hc).2
      exact h2 (List.elem_iff.mpr (List.mem_cons_self y seen))

theorem nodup_dedupFirst (l : List String) : (dedupFirst l).Nodup :=
  nodup_dedupFirstAux [] l

/-- The timestamps a group of emails can contribute to a thread. -/
def tsPool (rm : String → List EmailReplyItem) (l : List EmailHistoryItem) : List Nat :=
  l.map (·.sent_at) ++ l.flatMap fun e => (rm e.id).map (·.received_at)

theorem nodup_flatMap_cross {α β : Type} {l : List α} {f : α → List β}
    (h : (l.flatMap f).Nodup) :
    ∀ a ∈ l, ∀ b ∈ l, a ≠ b → ∀ x ∈ f a, x ∉ f b := by
  induction l with
  | nil => intro a ha; simp at ha
  | cons c t ih =>
    rw [List.flatMap_cons, List.nodup_append] at h
    intro a ha b hb hab x hxa hxb
    rcases List.mem_cons.mp ha with ha1 | ha1
    · rcases List.mem_cons.mp hb with hb1 | hb1
      · exact hab (ha1.trans hb1.symm)
      · rw [ha1] at hxa
        exact h.2.2 hxa (List.mem_flatMap.mpr ⟨b, hb1, hxb⟩)
    · rcases List.mem_cons.mp hb with hb1 | hb1
      · rw [hb1] at hxb
        exact h.2.2 hxb (List.mem_flatMap.mpr ⟨a, ha1, hxa⟩)
      · exact ih h.2.1 a ha1 b hb1 hab x hxa hxb

theorem mkThread_messages (sn : Option String) (rm : String → List EmailReplyItem)
    (k : String) (g : List EmailHistoryItem) :
    (mkThread sn rm k g).messages =
      sortByAsc (·.timestamp) (threadMessagesOf sn rm (sortByAsc (·.sent_at) g)) := rfl

theorem mkThread_lastActivity (sn : Option String) (rm : String → List EmailReplyItem)
    (k : String) (g : List EmailHistoryItem) :
    (mkThread sn rm k g).lastActivity =
      match (mkThread sn rm k g).messages.getLast? with
      | some m => m.timestamp
      | none =>
        match sortByAsc (·.sent_at) g with
        | first :: _ => first.sent_at
        | [] => 0 := rfl

theorem mem_msg_tsPool {sn : Option String} {rm : String → List EmailReplyItem}
    {k : String} {g : List EmailHistoryItem} :
    ∀ m ∈ (mkThread sn rm k g).messages, m.timestamp ∈ tsPool rm g := by
  intro m hm
  rw [mkThread_messages] at hm
  have hm2 : m ∈ threadMessagesOf sn rm (sortByAsc (·.sent_at) g) :=
    (sortByAsc_perm _ _).mem_iff.mp hm
  obtain ⟨e, he, hblock⟩ := List.mem_flatMap.mp hm2
  have heg : e ∈ g := (sortByAsc_perm _ _).mem_iff.mp he
  unfold tsPool
  rcases List.mem_cons.mp hblock with hsent | hrecv
  · subst hsent
    exact List.mem_append_left _ (List.mem_map.mpr ⟨e, heg, rfl⟩)
  · obtain ⟨r, hr, hm3⟩ := List.mem_map.mp hrecv
    subst hm3
    exact List.mem_append_right _
      (List.mem_flatMap.mpr ⟨e, heg, List.mem_map.mpr ⟨r, hr, rfl⟩⟩)

theorem mkThread_messages_ne_nil {sn : Option String}
    {rm : String → List EmailReplyItem} {k : String} {g : List EmailHistoryItem}
    (hg : g ≠ []) : (mkThread sn rm k g).messages ≠ [] := by
  obtain ⟨e0, he0⟩ := List.exists_mem_of_ne_nil g hg
  have he1 : e0 ∈ sortByAsc (·.sent_at) g := (sortByAsc_perm _ _).mem_iff.mpr he0
  have hmem : sentMsgOf sn e0 ∈ threadMessagesOf sn rm (sortByAsc (·.sent_at) g) :=
    List.mem_flatMap.mpr ⟨e0, he1, by simp⟩
  have : sentMsgOf sn e0 ∈ (mkThread sn rm k g).messages := by
    rw [mkThread_messages]
    exact (sortByAsc_perm _ _).mem_iff.mpr hmem
  exact List.ne_nil_of_mem this

theorem mkThread_lastActivity_mem {sn : Option String}
    {rm : String → List EmailReplyItem} {k : String} {g : List EmailHistoryItem}
    (hg : g ≠ []) :
    ∃ m ∈ (mkThread sn rm k g).messages,
      (mkThread sn rm k g).lastActivity = m.timestamp := by
  have hne := @mkThread_messages_ne_nil sn rm k g hg
  refine ⟨(mkThread sn rm k g).messages.getLast hne, List.getLast_mem hne, ?_⟩
  rw [mkThread_lastActivity, List.getLast?_eq_getLast _ hne]

theorem mkThread_congr {sn : Option String} {rm : String → List EmailReplyItem}
    {k : String} {g1 g2 : List EmailHistoryItem}
    (h : sortByAsc (·.sent_at) g1 = sortByAsc (·.sent_at) g2) :
    mkThread sn rm k g1 = mkThread sn rm k g2 := by
  unfold mkThread
  rw [h]

theorem pre_eq_mapKeys (sn : Option String) (rm : String → List EmailReplyItem)
    (emails : List EmailHistoryItem) :
    (groupByThread emails).map (fun kg => mkThread sn rm kg.1 kg.2) =
      (dedupFirst (emails.map threadKeyOf)).map
        fun k => mkThread sn rm k (emails.filter fun e => threadKeyOf e == k) := by
  unfold groupByThread
  rw [List.map_map]
  rfl

/-- With the same replies map and permuted inputs whose sent timestamps
are duplicate-free, the per-key sorted groups agree. -/
theorem group_sort_eq
    {emails1 emails2 : List EmailHistoryItem} (hperm : emails1.Perm emails2)
    (hsent : (emails1.map (·.sent_at)).Nodup) (k : String) :
    sortByAsc (·.sent_at) (emails1.filter fun e => threadKeyOf e == k) =
      sortByAsc (·.sent_at) (emails2.filter fun e => threadKeyOf e == k) := by
  have hgperm := hperm.filter fun e => threadKeyOf e == k
  have hnd : ((emails1.filter fun e => threadKeyOf e == k).map (·.sent_at)).Nodup :=
    List.Nodup.sublist (List.Sublist.map _ (List.filter_sublist emails1)) hsent
  refine eq_of_perm_sortedAsc (fun e : EmailHistoryItem => e.sent_at)
    ((sortByAsc_perm _ _).trans (hgperm.trans (sortByAsc_perm _ _).symm))
    (sortByAsc_sorted _ _) (sortByAsc_sorted _ _) ?_
  exact (((sortByAsc_perm (fun e : EmailHistoryItem => e.sent_at) _).map
    (fun e : EmailHistoryItem => e.sent_at)).nodup_iff).mpr hnd

/-- Distinct thread keys draw their timestamps from disjoint parts of a
duplicate-free global timestamp pool. -/
theorem tsPool_disjoint {rm : String → List EmailReplyItem}
    {emails : List EmailHistoryItem} (hts : (tsPool rm emails).Nodup)
    {k k' : String} (hkk : k ≠ k') (x : Nat)
    (hx : x ∈ tsPool rm (emails.filter fun e => threadKeyOf e == k))
    (hx' : x ∈ tsPool rm (emails.filter fun e => threadKeyOf e == k')) : False := by
  have hleft : (emails.map (·.sent_at)).Nodup := List.Nodup.of_append_left hts
  have hright : (emails.flatMap fun e => (rm e.id).map (·.received_at)).Nodup :=
    List.Nodup.of_append_right hts
  have hdisj := (List.nodup_append.mp hts).2.2
  have hsrc : ∀ {kk : String}, x ∈ tsPool rm (emails.filter fun e => threadKeyOf e == kk) →
      ∃ e ∈ emails, threadKeyOf e = kk ∧
        (x = e.sent_at ∨ x ∈ (rm e.id).map (·.received_at)) := by
    intro kk hmem
    unfold tsPool at hmem
    rcases List.mem_append.mp hmem with hmem | hmem
    · obtain ⟨e, he, hex⟩ := List.mem_map.mp hmem
      obtain ⟨he1, he2⟩ := List.mem_filter.mp he
      exact ⟨e, he1, by simpa using he2, Or.inl hex.symm⟩
    · obtain ⟨e, he, hex⟩ := List.mem_flatMap.mp hmem
      obtain ⟨he1, he2⟩ := List.mem_filter.mp he
      exact ⟨e, he1, by simpa using he2, Or.inr hex⟩
  obtain ⟨e, he, hek, hcase⟩ := hsrc hx
  obtain ⟨e', he', hek', hcase'⟩ := hsrc hx'
  have hee : e ≠ e' := fun hc => hkk (by rw [← hek, hc, hek'])
  rcases hcase with hc1 | hc1 <;> rcases hcase' with hc2 | hc2
  · exact hee (List.inj_on_of_nodup_map hleft he he' (by rw [← hc1, ← hc2]))
  · exact hdisj (hc1 ▸ List.mem_map.mpr ⟨e, he, rfl⟩)
      (List.mem_flatMap.mpr ⟨e', he', hc2⟩)
  · exact hdisj (hc2 ▸ List.mem_map.mpr ⟨e', he', rfl⟩)
      (List.mem_flatMap.mpr ⟨e, he, hc1⟩)
  · exact nodup_flatMap_cross hright e he e' he' hee x hc1 hc2


/-- First email of the C5 witness scenario: a root send at timestamp 10
with one recorded reply at timestamp 30. -/
def c5wE1 : EmailHistoryItem :=
  { id := "a", subject := "Offer", recipient_email := "r1@y.com",
    recipient_name := none, sender_email := "s@x.com", body := none,
    status := "sent", sent_at := 10, bounce_type := none,
    bounce_reason := none, is_valid_open := none, open_count := none,
    reply_count := some 1, thread_id := none }

/-- Second email of the C5 witness scenario: a root send at timestamp 20. -/
def c5wE2 : EmailHistoryItem :=
  { id := "b", subject := "News", recipient_email := "r2@y.com",
    recipient_name := none, sender_email := "s@x.com", body := none,
    status := "delivered", sent_at := 20, bounce_type := none,
    bounce_reason := none, is_valid_open := none, open_count := none,
    reply_count := none, thread_id := none }

/-- Replies map of the C5 witness scenario. -/
def c5wRm : String → List EmailReplyItem := fun i =>
  if i = "a" then
    [{ id := "r1", from_email := "r1@y.com", from_name := none,
       received_at := 30, body_preview := some "sounds good",
       subject := some "Re: Offer" }]
  else []

/-- C5: with a fixed replies map, thread assembly sorts every produced
thread's combined sent/received message list ascending by timestamp and
the thread list descending by last activity; and whenever the input's
timestamp pool (all sent timestamps together with all attached reply
received timestamps) is duplicate-free, every permutation of the email
rows yields the same output. -/
theorem thread_assembly_deterministic (sn : Option String)
    (rm : String → List EmailReplyItem) (emails1 emails2 : List EmailHistoryItem)
    (hperm : emails1.Perm emails2) (hts : (tsPool rm emails1).Nodup) :
    (∀ t ∈ buildThreads sn rm emails1,
        t.messages.Pairwise fun a b => a.timestamp ≤ b.timestamp) ∧
    ((buildThreads sn rm emails1).Pairwise
        fun a b => b.lastActivity ≤ a.lastActivity) ∧
    buildThreads sn rm emails1 = buildThreads sn rm emails2 := by
  have hsent : (emails1.map (·.sent_at)).Nodup := List.Nodup.of_append_left hts
  refine ⟨?_, ?_, ?_⟩
  · intro t ht
    rw [buildThreads_mem_decomp ht, mkThread_messages]
    exact sortByAsc_sorted _ _
  · unfold buildThreads
    exact sortByDesc_sorted _ _
  · have hgroup_ne : ∀ k ∈ dedupFirst (emails1.map threadKeyOf),
        (emails1.filter fun e => threadKeyOf e == k) ≠ [] := by
      intro k hk
      obtain ⟨e, he, hek⟩ := List.mem_map.mp (mem_dedupFirst.mp hk)
      exact List.ne_nil_of_mem (List.mem_filter.mpr ⟨he, by simp [hek]⟩)
    have hfeq : (fun k => mkThread sn rm k (emails1.filter fun e => threadKeyOf e == k)) =
        fun k => mkThread sn rm k (emails2.filter fun e => threadKeyOf e == k) := by
      funext k
      exact mkThread_congr (group_sort_eq hperm hsent k)
    have hKperm : (dedupFirst (emails1.map threadKeyOf)).Perm
        (dedupFirst (emails2.map threadKeyOf)) := by
      refine (List.perm_ext_iff_of_nodup (nodup_dedupFirst _) (nodup_dedupFirst _)).mpr ?_
      intro a
      rw [mem_dedupFirst, mem_dedupFirst]
      exact (hperm.map threadKeyOf).mem_iff
    have hPW : (dedupFirst (emails1.map threadKeyOf)).Pairwise
        fun a b =>
          (mkThread sn rm a (emails1.filter fun e => threadKeyOf e == a)).lastActivity ≠
          (mkThread sn rm b (emails1.filter fun e => threadKeyOf e == b)).lastActivity := by
      refine List.Pairwise.imp_of_mem ?_ (nodup_dedupFirst _)
      intro a b ha hb hab heq
      obtain ⟨m, hm, hLa⟩ := @mkThread_lastActivity_mem sn rm a _ (hgroup_ne a ha)
      obtain ⟨m2, hm2, hLb⟩ := @mkThread_lastActivity_mem sn rm b _ (hgroup_ne b hb)
      have hxa := mem_msg_tsPool m hm
      have hxb := mem_msg_tsPool m2 hm2
      have hmm : m.timestamp = m2.timestamp := hLa.symm.trans (heq.trans hLb)
      rw [hmm] at hxa
      exact tsPool_disjoint hts hab m2.timestamp hxa hxb
    have hndLA : (((dedupFirst (emails1.map threadKeyOf)).map
        fun k => mkThread sn rm k (emails1.filter fun e => threadKeyOf e == k)).map
          fun t => t.lastActivity).Nodup := by
      refine pairwise_nodup_map ?_
      rw [List.pairwise_map]
      exact hPW
    unfold buildThreads
    rw [pre_eq_mapKeys, pre_eq_mapKeys, ← hfeq]
    refine eq_of_perm_sortedDesc (fun t : EmailThread => t.lastActivity)
      ((sortByDesc_perm _ _).trans ((hKperm.map _).trans (sortByDesc_perm _ _).symm))
      (sortByDesc_sorted _ _) (sortByDesc_sorted _ _) ?_
    exact (((sortByDesc_perm _ _).map fun t : EmailThread => t.lastActivity).nodup_iff).mpr hndLA

/-- Witness for C5: the theorem applied to a concrete two-email
permutation with duplicate-free timestamps. -/
theorem thread_assembly_deterministic_witness :
    [c5wE1, c5wE2].Perm [c5wE2, c5wE1] ∧ (tsPool c5wRm [c5wE1, c5wE2]).Nodup ∧
      ((∀ t ∈ buildThreads none c5wRm [c5wE1, c5wE2],
          t.messages.Pairwise fun a b => a.timestamp ≤ b.timestamp) ∧
        ((buildThreads none c5wRm [c5wE1, c5wE2]).Pairwise
            fun a b => b.lastActivity ≤ a.lastActivity) ∧
        buildThreads none c5wRm [c5wE1, c5wE2] =
          buildThreads none c5wRm [c5wE2, c5wE1]) :=
  ⟨List.Perm.swap c5wE2 c5wE1 [], by decide,
    thread_assembly_deterministic none c5wRm [c5wE1, c5wE2] [c5wE2, c5wE1]
      (List.Perm.swap c5wE2 c5wE1 []) (by decide)⟩

/-- First email of the C5 counterexample: a root send at timestamp 10. -/
def c5cexE1 : EmailHistoryItem :=
  { id := "a", subject := "Alpha", recipient_email := "r1@y.com",
    recipient_name := none, sender_email := "s@x.com", body := none,
    status := "sent", sent_at := 10, bounce_type := none,
    bounce_reason := none, is_valid_open := none, open_count := none,
    reply_count := none, thread_id := none }

/-- Second email of the C5 counterexample: an unrelated root send with
the same sent timestamp 10. -/
def c5cexE2 : EmailHistoryItem :=
  { id := "b", subject := "Beta", recipient_email := "r2@y.com",
    recipient_name := none, sender_email := "s@x.com", body := none,
    status := "sent", sent_at := 10, bounce_type := none,
    bounce_reason := none, is_valid_open := none, open_count := none,
    reply_count := none, thread_id := none }

/-- Counterexample to C5 as stated: two root emails whose threads tie on
last activity; the stable descending sort keeps them in input order, so
the two input orders produce different thread lists. -/
theorem thread_assembly_order_counterexample :
    buildThreads none (fun _ => []) [c5cexE1, c5cexE2] ≠
      buildThreads none (fun _ => []) [c5cexE2, c5cexE1] := by decide
